import Mathlib

/-!
Shallow embedding of the numerical core of libcoocvt (coordinate conversion
library for orbital dynamics) and verification of its specification claims.

C doubles are modelled as exact real numbers; the C math library functions
sin, cos, tan, sqrt, cbrt, atan2, hypot are modelled by the corresponding
exact real functions.  C structs become Lean structures, arrays become lists
(out-of-bounds reads, undefined behaviour in C, are totalized with a default
element), null pointers become Option, and the in-place converters return
the success flag together with the new array contents.
-/

set_option maxHeartbeats 1000000

/-! ## Data model (types.h, vec3d.h, vec4d.h) -/

/-- Three-dimensional vector with a cached Euclidean norm field, as in vec3d.h. -/
structure vec3d_t where
  x : ℝ
  y : ℝ
  z : ℝ
  abs : ℝ


/-- Four-dimensional vector with a cached Euclidean norm field, as in vec4d.h. -/
structure vec4d_t where
  u1 : ℝ
  u2 : ℝ
  u3 : ℝ
  u4 : ℝ
  abs : ℝ


/-- Cartesian position/velocity pair (hco_t; bco_t, jco_t, pco_t are typedefs of it). -/
structure hco_t where
  pos : vec3d_t
  vel : vec3d_t


/-- Regularized (Kustaanheimo-Stiefel) parametric coordinates, rco_t. -/
structure rco_t where
  pos : vec4d_t
  vel : vec4d_t


/-- Heliocentric Keplerian orbital elements, hel_t. -/
structure hel_t where
  sma : ℝ
  ecc : ℝ
  inc : ℝ
  aph : ℝ
  lan : ℝ
  man : ℝ


/-- Delaunay canonical elements, del_t. -/
structure del_t where
  L : ℝ
  G : ℝ
  H : ℝ
  l : ℝ
  g : ℝ
  h : ℝ


/-- One body record holding every coordinate representation plus the mass (body_t). -/
structure body_t where
  bco : hco_t
  hco : hco_t
  jco : hco_t
  pco : hco_t
  rco : rco_t
  del : del_t
  hel : hel_t
  mass : ℝ


/-- Enumeration of coordinate types (enum COO_TYPE_e in types.h). -/
inductive COO_TYPE_e where
  | COO_NONE
  | COO_BCO
  | COO_HCO
  | COO_JCO
  | COO_PCO
  | COO_RCO
  | COO_DEL
  | COO_HEL
  | COO_TOTAL
deriving DecidableEq

export COO_TYPE_e (COO_NONE COO_BCO COO_HCO COO_JCO COO_PCO COO_RCO COO_DEL COO_HEL COO_TOTAL)

/-- Enumeration of conversion modes (enum CVT_MODE_e in libcoocvt.h). -/
inductive CVT_MODE_e where
  | CVT_NONE
  | CVT_BCO2HCO
  | CVT_HCO2BCO
  | CVT_HCO2HEL
  | CVT_HEL2HCO
  | CVT_TOTAL_NUMBER
deriving DecidableEq

export CVT_MODE_e (CVT_NONE CVT_BCO2HCO CVT_HCO2BCO CVT_HCO2HEL CVT_HEL2HCO CVT_TOTAL_NUMBER)

/-! ## Global zero constants (utils.c) -/

/-- Zero 3-vector, v3d_zero in utils.c. -/
def v3d_zero : vec3d_t := ⟨0, 0, 0, 0⟩

/-- Zero 4-vector, v4d_zero in utils.c. -/
def v4d_zero : vec4d_t := ⟨0, 0, 0, 0, 0⟩

/-- Zero Cartesian state, hco_zero (and bco_zero, jco_zero, pco_zero) in utils.c. -/
def hco_zero : hco_t := ⟨⟨0, 0, 0, 0⟩, ⟨0, 0, 0, 0⟩⟩

/-- Zero regularized state, rco_zero in utils.c. -/
def rco_zero : rco_t := ⟨⟨0, 0, 0, 0, 0⟩, ⟨0, 0, 0, 0, 0⟩⟩

/-- Zero orbital elements, hel_zero in utils.c. -/
def hel_zero : hel_t := ⟨0, 0, 0, 0, 0, 0⟩

/-- Zero Delaunay elements, del_zero in utils.c. -/
def del_zero : del_t := ⟨0, 0, 0, 0, 0, 0⟩

/-- Stand-in element for C reads beyond the end of the body array
(undefined behaviour in C, totalized here). -/
def defaultBody : body_t := ⟨hco_zero, hco_zero, hco_zero, hco_zero, rco_zero, del_zero, hel_zero, 0⟩

/-! ## Constants (const.c) -/

/-- The C macro M_PI (the double closest to pi), idealized to the exact pi. -/
noncomputable def M_PI : ℝ := Real.pi

/-- M_2PI = M_PI + M_PI from const.c. -/
noncomputable def M_2PI : ℝ := M_PI + M_PI

/-- M_PISQ = M_PI * M_PI from const.c. -/
noncomputable def M_PISQ : ℝ := M_PI * M_PI

/-- Gaussian gravitational constant k (const.c). -/
def gaussk : ℝ := 0.01720209895

/-- Gaussian gravitational constant squared, k^2 (const.c). -/
def gaussk2 : ℝ := 2.9591220828559115e-4

/-! ## Vector kernel (vec3d.c), the operations used by the converters.
Each C routine writes only the x, y, z components of its destination;
the cached norm field of the destination is left unchanged, so the
destination value is passed in and its norm field is carried over. -/

/-- vec3d_inner: scalar product of two vectors. -/
def vec3d_inner (a b : vec3d_t) : ℝ := a.x * b.x + a.y * b.y + a.z * b.z

/-- vec3d_abs: Euclidean norm of a vector. -/
noncomputable def vec3d_abs (v : vec3d_t) : ℝ := Real.sqrt (v.x * v.x + v.y * v.y + v.z * v.z)

/-- vec3d_sub: dest = a - b componentwise; dest.abs not updated. -/
def vec3d_sub (dest a b : vec3d_t) : vec3d_t :=
  { x := a.x - b.x, y := a.y - b.y, z := a.z - b.z, abs := dest.abs }

/-- vec3d_smul: dest = scalar * v componentwise; dest.abs not updated. -/
def vec3d_smul (dest v : vec3d_t) (scalar : ℝ) : vec3d_t :=
  { x := scalar * v.x, y := scalar * v.y, z := scalar * v.z, abs := dest.abs }

/-- vec3d_madd: dest = v + w * scalar componentwise; dest.abs not updated. -/
def vec3d_madd (dest v w : vec3d_t) (scalar : ℝ) : vec3d_t :=
  { x := v.x + w.x * scalar, y := v.y + w.y * scalar, z := v.z + w.z * scalar, abs := dest.abs }

/-- vec3d_outer: dest = a x b (cross product); dest.abs not updated. -/
def vec3d_outer (dest a b : vec3d_t) : vec3d_t :=
  { x := a.y * b.z - a.z * b.y
    y := a.z * b.x - a.x * b.z
    z := a.x * b.y - a.y * b.x
    abs := dest.abs }

/-! ## Math library models -/

/-- Model of the C library atan2(y, x): the argument of the complex number x + i y. -/
noncomputable def atan2 (y x : ℝ) : ℝ := Complex.arg ⟨x, y⟩

/-- Model of the C library hypot(x, y) = sqrt(x^2 + y^2). -/
noncomputable def hypot (x y : ℝ) : ℝ := Real.sqrt (x * x + y * y)

/-- Model of the C library cbrt: the real cube root, odd extension of rpow. -/
noncomputable def cbrt (x : ℝ) : ℝ :=
  if 0 ≤ x then x ^ ((1 : ℝ) / 3) else -((-x) ^ ((1 : ℝ) / 3))

/-! ## Kepler equation solver (kepler.c) -/

/-- Internal constant addzero = 1.0e-19 of kepler.c, added to the first
derivative to avoid division by zero at (x, e) = (0, 1). -/
def addzero : ℝ := 1e-19

/-- reduce (kepler.c): bring an angle into the principal interval by
subtracting the floor multiple of 2 pi and adjusting by one turn. -/
noncomputable def reduce (x : ℝ) : ℝ :=
  let x1 := x - (⌊x / M_2PI⌋ : ℝ) * M_2PI
  let x2 := if x1 > M_PI then x1 - M_2PI else x1
  if x2 < -M_PI then x2 + M_2PI else x2

/-- coo_sincos (kepler.c): simultaneous sine and cosine of x via the
tangent half-angle identity; when ecc is nonnegative both results are
multiplied by ecc.  Returns the pair (sin part, cos part). -/
noncomputable def coo_sincos (x ecc : ℝ) : ℝ × ℝ :=
  let tx := Real.tan (0.5 * x)
  let den := 1 / (1 + tx * tx)
  let cx := (1 - tx * tx) * den
  let sx := 2 * tx * den
  if 0 ≤ ecc then (sx * ecc, cx * ecc) else (sx, cx)

/-- itercore (kepler.c): one pass of the Danby-Burkardt fifth-order
iteration for the Kepler equation, chaining Newton, Halley, quartic and
quintic corrections. -/
noncomputable def itercore (ecc ma x : ℝ) : ℝ :=
  let sc := coo_sincos x ecc
  let esinx := sc.1
  let ecosx := sc.2
  let f0 := ma - x + esinx
  let f1 := 1 - ecosx + addzero
  let f2 := esinx / 2
  let f3 := ecosx / 6
  let f4 := -esinx / 24
  let dx1 := f0 / f1
  let dx2 := f0 / (f1 + f2 * dx1)
  let dx3 := f0 / (f1 + f2 * dx2 + f3 * dx2 * dx2)
  let dx4 := f0 / (f1 + f2 * dx3 + f3 * dx3 * dx3 + f4 * dx3 * dx3 * dx3)
  x + dx4

/-- Local variable a of markley (kepler.c), from the parameters ad and ak. -/
noncomputable def markley_a (ecc ma : ℝ) : ℝ :=
  let ad0 := 1 / (M_PISQ - 6)
  let ak := 1.6 * M_PI * ad0
  let ad := ad0 * (3 * M_PISQ)
  ad + ak * (M_PI - ma) / (1 + ecc)

/-- Local variable d of markley (kepler.c). -/
noncomputable def markley_d (ecc ma : ℝ) : ℝ :=
  3 * (1 - ecc) + markley_a ecc ma * ecc

/-- Local variable q of markley (kepler.c). -/
noncomputable def markley_q (ecc ma : ℝ) : ℝ :=
  2 * markley_a ecc ma * markley_d ecc ma * (1 - ecc) - ma * ma

/-- Local variable r of markley (kepler.c). -/
noncomputable def markley_r (ecc ma : ℝ) : ℝ :=
  3 * markley_a ecc ma * markley_d ecc ma * (markley_d ecc ma - 1 + ecc) * ma
    + ma * ma * ma

/-- Local variable w of markley (kepler.c) after the squaring step
(w = cbrt(|r| + sqrt(q^3 + r^2)), then w *= w). -/
noncomputable def markley_w (ecc ma : ℝ) : ℝ :=
  let w0 := cbrt (|markley_r ecc ma|
    + Real.sqrt (markley_q ecc ma * markley_q ecc ma * markley_q ecc ma
        + markley_r ecc ma * markley_r ecc ma))
  w0 * w0

/-- Step 1 of markley (kepler.c): the quasi-analytic Pade starter E0 of
Markley (1995), factored into the named local variables above. -/
noncomputable def markleyStarter (ecc ma : ℝ) : ℝ :=
  if markley_w ecc ma > 0 then
    (2 * markley_r ecc ma * markley_w ecc ma
        / (markley_w ecc ma * markley_w ecc ma
            + markley_q ecc ma * markley_w ecc ma
            + markley_q ecc ma * markley_q ecc ma)
      + ma) / markley_d ecc ma
  else 0

/-- markley (kepler.c): Markley starter followed by one fifth-order
Danby-Burkardt correction pass. -/
noncomputable def markley (ecc ma : ℝ) : ℝ :=
  itercore ecc ma (markleyStarter ecc ma)

/-- coo_kesolver (kepler.c): reduce the mean anomaly to the principal
interval and solve, using the odd symmetry of the Kepler equation for
negative reduced values. -/
noncomputable def coo_kesolver (ecc ma : ℝ) : ℝ :=
  let mr := reduce ma
  if mr < 0 then -markley ecc (-mr) + M_2PI else markley ecc mr

/-! ## Index-window iteration helpers.
The C converters loop an index i over a half-open window and update
obj[i] in place; mapIdxFrom models one such pass over the list. -/

/-- Apply f to every element together with its index (starting at s). -/
def mapIdxFrom (f : ℕ → body_t → body_t) : ℕ → List body_t → List body_t
  | _, [] => []
  | s, b :: t => f s b :: mapIdxFrom f (s + 1) t

/-! ## Frame/barycenter utilities (utils.c) -/

/-- coo_total_mass (utils.c): plain running sum of the masses of the
bodies with indices in [fromIdx, uptoIdx). -/
def coo_total_mass (obj : List body_t) (fromIdx uptoIdx : ℕ) : ℝ :=
  (List.range' fromIdx (uptoIdx - fromIdx)).foldl
    (fun mtot idx => mtot + (obj.getD idx defaultBody).mass) 0

/-- One loop iteration of coo_total_mass_cs: state is (errm, newm, oldm). -/
def csStep (obj : List body_t) (st : ℝ × ℝ × ℝ) (idx : ℕ) : ℝ × ℝ × ℝ :=
  let incm := st.1 + (obj.getD idx defaultBody).mass
  let newm := st.2.2 + incm
  let errm := (st.2.2 - newm) + incm
  (errm, newm, newm)

/-- coo_total_mass_cs (utils.c): compensated (error-tracking) summation
of the masses of the bodies with indices in [fromIdx, uptoIdx). -/
def coo_total_mass_cs (obj : List body_t) (fromIdx uptoIdx : ℕ) : ℝ :=
  ((List.range' fromIdx (uptoIdx - fromIdx)).foldl (csStep obj) (0, 0, 0)).2.1

/-- One loop iteration shared by the four getBarycenter helpers in utils.c:
bc = bc + sel(src[i]) * mass[i], componentwise through vec3d_madd. -/
def baryStep (sel : body_t → hco_t) (src : List body_t) (acc : hco_t) (i : ℕ) : hco_t :=
  let b := src.getD i defaultBody
  { pos := vec3d_madd acc.pos acc.pos (sel b).pos b.mass
    vel := vec3d_madd acc.vel acc.vel (sel b).vel b.mass }

/-- Shared accumulation loop of the four getBarycenter helpers in utils.c,
over the index window [fromIdx, uptoIdx). -/
def baryAccum (sel : body_t → hco_t) (src : List body_t) (bc : hco_t)
    (fromIdx uptoIdx : ℕ) : hco_t :=
  (List.range' fromIdx (uptoIdx - fromIdx)).foldl (baryStep sel src) bc

/-- getBarycenter_BCO (utils.c). -/
def getBarycenter_BCO (src : List body_t) (bc : hco_t) (fromIdx uptoIdx : ℕ) : hco_t :=
  baryAccum (fun b => b.bco) src bc fromIdx uptoIdx

/-- getBarycenter_HCO (utils.c). -/
def getBarycenter_HCO (src : List body_t) (bc : hco_t) (fromIdx uptoIdx : ℕ) : hco_t :=
  baryAccum (fun b => b.hco) src bc fromIdx uptoIdx

/-- getBarycenter_JCO (utils.c). -/
def getBarycenter_JCO (src : List body_t) (bc : hco_t) (fromIdx uptoIdx : ℕ) : hco_t :=
  baryAccum (fun b => b.jco) src bc fromIdx uptoIdx

/-- getBarycenter_PCO (utils.c). -/
def getBarycenter_PCO (src : List body_t) (bc : hco_t) (fromIdx uptoIdx : ℕ) : hco_t :=
  baryAccum (fun b => b.pco) src bc fromIdx uptoIdx

/-- coo_get_barycenter (utils.c).  bcNull models passing a null bc pointer
and bc0 the content behind the pointer before the call; src = none models a
null body array.  Returns the error flag and the content behind bc after
the call. -/
noncomputable def coo_get_barycenter (bcNull : Bool) (src : Option (List body_t)) (bc0 : hco_t)
    (fromIdx uptoIdx : ℕ) (type : COO_TYPE_e) : ℕ × hco_t :=
  if bcNull then (1, bc0)
  else
    match src with
    | none => (1, bc0)
    | some l =>
      if fromIdx > uptoIdx then (1, bc0)
      else
        -- reset all barycenter components to zero, then select the type
        match type with
        | COO_BCO => coo_get_barycenter_scale l (getBarycenter_BCO l hco_zero fromIdx uptoIdx) fromIdx uptoIdx
        | COO_HCO => coo_get_barycenter_scale l (getBarycenter_HCO l hco_zero fromIdx uptoIdx) fromIdx uptoIdx
        | COO_JCO => coo_get_barycenter_scale l (getBarycenter_JCO l hco_zero fromIdx uptoIdx) fromIdx uptoIdx
        | COO_PCO => coo_get_barycenter_scale l (getBarycenter_PCO l hco_zero fromIdx uptoIdx) fromIdx uptoIdx
        | _ => (1, hco_zero)
where
  /-- Final scaling step of coo_get_barycenter: bc *= 1 / total mass. -/
  coo_get_barycenter_scale (l : List body_t) (bc : hco_t) (fromIdx uptoIdx : ℕ) : ℕ × hco_t :=
    let mtot := 1 / coo_total_mass_cs l fromIdx uptoIdx
    (0, { pos := vec3d_smul bc.pos bc.pos mtot, vel := vec3d_smul bc.vel bc.vel mtot })

/-- coo_recenter (utils.c): dest = src - cen for positions and velocities;
the destination is passed in because its cached norm fields are carried over. -/
def coo_recenter (dest src cen : hco_t) : hco_t :=
  { pos := vec3d_sub dest.pos src.pos cen.pos
    vel := vec3d_sub dest.vel src.vel cen.vel }

/-- Mass-weighted center of a coordinate selection over an index window,
written directly as sums divided by the total mass; this is the
specification-side description of coo_get_barycenter's successful result
(spec section 4.3), to be compared with the implementation. -/
noncomputable def specMassCenter (sel : body_t → hco_t) (l : List body_t)
    (fromIdx uptoIdx : ℕ) : hco_t :=
  let idx := List.range' fromIdx (uptoIdx - fromIdx)
  let m := (idx.map (fun i => (l.getD i defaultBody).mass)).sum
  let w : (hco_t → vec3d_t) → (vec3d_t → ℝ) → ℝ := fun pv c =>
    (idx.map (fun i => c (pv (sel (l.getD i defaultBody))) * (l.getD i defaultBody).mass)).sum
  { pos := { x := w hco_t.pos vec3d_t.x / m, y := w hco_t.pos vec3d_t.y / m
             z := w hco_t.pos vec3d_t.z / m, abs := 0 }
    vel := { x := w hco_t.vel vec3d_t.x / m, y := w hco_t.vel vec3d_t.y / m
             z := w hco_t.vel vec3d_t.z / m, abs := 0 } }

/-! ## Elementary converters -/

/-- bco2hco (bco2hco.c): heliocentric = barycentric - barycentric of the
central body, for every index i in [0, dim).  obj = none models a null
array pointer; the returned list is the array content after the call. -/
noncomputable def bco2hco (obj : Option (List body_t)) (dim center : ℕ) : ℕ × List body_t :=
  match obj with
  | none => (1, [])
  | some l =>
    if dim < center then (1, l)
    else
      let bc := (l.getD center defaultBody).bco
      (0, mapIdxFrom (fun i b =>
            if i < dim then { b with hco := coo_recenter b.hco b.bco bc } else b) 0 l)

/-- hco2bco (hco2bco.c): compute the barycenter of the heliocentric
coordinates of the whole window [0, dim), then barycentric =
heliocentric - barycenter for every index in the window.  The local bc
variable of the C code is uninitialized before the call, modelled by
hco_zero (its value is never read on the paths that use it). -/
noncomputable def hco2bco (obj : Option (List body_t)) (dim center : ℕ) : ℕ × List body_t :=
  match obj with
  | none => (1, [])
  | some l =>
    if dim < center then (1, l)
    else
      let r := coo_get_barycenter false (some l) hco_zero 0 dim COO_HCO
      if r.1 ≠ 0 then (1, l)
      else
        (0, mapIdxFrom (fun i b =>
              if i < dim then { b with bco := coo_recenter b.bco b.hco r.2 } else b) 0 l)

/-- hco2hel_core (hco2hel.c): convert one body's heliocentric Cartesian
state to Keplerian elements.  ele is the element record behind the output
pointer before the call (the C code updates its fields in place and may
return the error flag after a partial update); returns the flag together
with the record after the call. -/
noncomputable def hco2hel_core (ele : hel_t) (coo : hco_t) (mu : ℝ) : ℕ × hel_t :=
  let pabs := vec3d_abs coo.pos
  -- normalised velocity, a local vec3d_t whose norm field is then set
  let nvel1 := vec3d_smul v3d_zero coo.vel (1 / Real.sqrt mu)
  let nvel : vec3d_t := { nvel1 with abs := vec3d_abs nvel1 }
  -- specific angular momentum
  let angm1 := vec3d_outer v3d_zero coo.pos nvel
  let angm : vec3d_t := { angm1 with abs := vec3d_abs angm1 }
  let inc := atan2 (hypot angm.x angm.y) angm.z
  let lan := atan2 angm.x (-angm.y)
  -- argument of latitude
  let u := atan2 (coo.pos.z * angm.abs) (coo.pos.y * angm.x - coo.pos.x * angm.y)
  let inva := 2 / pabs - nvel.abs * nvel.abs
  let ele1 : hel_t := { ele with inc := inc, lan := lan }
  if inva > 0 then
    let ele2 : hel_t := { ele1 with sma := 1 / inva }
    let ecosE := 1 - pabs * inva
    let esinE := vec3d_inner coo.pos nvel * Real.sqrt inva
    let E := atan2 esinE ecosE
    let ecc := hypot esinE ecosE
    let ele3 : hel_t := { ele2 with ecc := ecc }
    if ecc < 0 ∨ 1 ≤ ecc then (1, ele3)
    else
      let man := E - esinE
      let e2 := ecc * ecc
      let ta := atan2 (Real.sqrt (1 - e2) * esinE) (ecosE - e2)
      let aph := u - ta
      -- make angles positive
      (0, { ele3 with
            man := if man < 0 then man + M_2PI else man
            aph := if aph < 0 then aph + M_2PI else aph
            inc := if inc < 0 then inc + M_2PI else inc
            lan := if lan < 0 then lan + M_2PI else lan })
  else (1, ele1)

/-- hco2hel (hco2hel.c): zero the central body's elements, then convert
every other body in the window [0, dim); the per-body return value of
hco2hel_core is discarded by a (void) cast in the C source. -/
noncomputable def hco2hel (obj : Option (List body_t)) (dim center : ℕ) : ℕ × List body_t :=
  match obj with
  | none => (1, [])
  | some l =>
    if dim < center then (1, l)
    else
      let l1 := mapIdxFrom (fun i b => if i = center then { b with hel := hel_zero } else b) 0 l
      (0, mapIdxFrom (fun i b =>
            if i < dim ∧ i ≠ center then
              { b with hel := (hco2hel_core b.hel b.hco
                  (gaussk2 * ((l1.getD center defaultBody).mass + b.mass))).2 }
            else b) 0 l1)

/-- hel2hco_core (hel2hco.c): convert one body's Keplerian elements to
heliocentric Cartesian coordinates.  coo is the coordinate record behind
the output pointer before the call; its cached norm fields are carried
over because the C code writes only the x, y, z components. -/
noncomputable def hel2hco_core (coo : hco_t) (ele : hel_t) (mu : ℝ) : ℕ × hco_t :=
  if ele.sma ≤ 0 then (1, coo)
  else if ele.ecc < 0 ∨ 1 ≤ ele.ecc then (1, coo)
  else
    let scinc := coo_sincos ele.inc (-1)
    let scaph := coo_sincos ele.aph (-1)
    let sclan := coo_sincos ele.lan (-1)
    let s11 := sclan.2 * scaph.2 - sclan.1 * scaph.1 * scinc.2
    let s21 := sclan.1 * scaph.2 + sclan.2 * scaph.1 * scinc.2
    let s31 := scaph.1 * scinc.1
    let s12 := -sclan.2 * scaph.1 - sclan.1 * scaph.2 * scinc.2
    let s22 := -sclan.1 * scaph.1 + sclan.2 * scaph.2 * scinc.2
    let s32 := scaph.2 * scinc.1
    let ea := coo_kesolver ele.ecc ele.man
    let scE := coo_sincos ea (-1)
    let tmpe := Real.sqrt (1 - ele.ecc * ele.ecc)
    let q1 := ele.sma * (scE.2 - ele.ecc)
    let q2 := ele.sma * tmpe * scE.1
    let q1v := Real.sqrt mu / ((1 - ele.ecc * scE.2) * Real.sqrt ele.sma)
    let q2v := q1v * tmpe * scE.2
    let q1w := q1v * -scE.1
    (0, { pos := { x := s11 * q1 + s12 * q2
                   y := s21 * q1 + s22 * q2
                   z := s31 * q1 + s32 * q2
                   abs := coo.pos.abs }
          vel := { x := s11 * q1w + s12 * q2v
                   y := s21 * q1w + s22 * q2v
                   z := s31 * q1w + s32 * q2v
                   abs := coo.vel.abs } })

/-- hel2hco (hel2hco.c): zero the central body's heliocentric state, then
convert every other body in the window [0, dim); the per-body return value
of hel2hco_core is discarded by a (void) cast in the C source. -/
noncomputable def hel2hco (obj : Option (List body_t)) (dim center : ℕ) : ℕ × List body_t :=
  match obj with
  | none => (1, [])
  | some l =>
    if dim < center then (1, l)
    else
      let l1 := mapIdxFrom (fun i b => if i = center then { b with hco := hco_zero } else b) 0 l
      (0, mapIdxFrom (fun i b =>
            if i < dim ∧ i ≠ center then
              { b with hco := (hel2hco_core b.hco b.hel
                  (gaussk2 * ((l1.getD center defaultBody).mass + b.mass))).2 }
            else b) 0 l1)

/-! ## Conversion dispatcher (coocvt.c) -/

/-- coocvt (coocvt.c): validate the array pointer and the index pair,
then dispatch on the conversion mode. -/
noncomputable def coocvt (obj : Option (List body_t)) (dim center : ℕ)
    (mode : CVT_MODE_e) : ℕ × List body_t :=
  match obj with
  | none => (1, [])
  | some l =>
    if dim < center then (1, l)
    else
      match mode with
      | CVT_BCO2HCO => bco2hco (some l) dim center
      | CVT_HCO2BCO => hco2bco (some l) dim center
      | CVT_HCO2HEL => hco2hel (some l) dim center
      | CVT_HEL2HCO => hel2hco (some l) dim center
      | _ => (1, l)

/-! ## Concrete populations used as test inputs for individual claims -/

/-- Two-body population whose non-central body moves too fast for an
elliptic orbit: mass parameter mu = 1, position (1,0,0) AU, velocity
(2,0,0) AU/day, so the vis-viva value is 2/1 - 4 = -2. -/
noncomputable def popC2 : List body_t :=
  [ { defaultBody with mass := 1 / gaussk2 },
    { defaultBody with mass := 0, hco := ⟨⟨1, 0, 0, 0⟩, ⟨2, 0, 0, 0⟩⟩ } ]

/-- Two-body population with masses 1 and 1: the central body sits at the
heliocentric origin and body 1 at position (2,0,0), so the barycenter is
at (1,0,0) and the central body's barycentric position is (-1,0,0). -/
noncomputable def popC3 : List body_t :=
  [ { defaultBody with mass := 1 },
    { defaultBody with mass := 1, hco := ⟨⟨2, 0, 0, 0⟩, ⟨0, 0, 0, 0⟩⟩ } ]

/-- Two-body population with masses 1 and 1 and a nonzero heliocentric
state for body 1, used to witness the barycenter invariance. -/
noncomputable def popC9 : List body_t :=
  [ { defaultBody with mass := 1 },
    { defaultBody with mass := 1, hco := ⟨⟨2, 0, 0, 0⟩, ⟨4, 0, 0, 0⟩⟩ } ]

/-! # Verification layer -/

attribute [ext] vec3d_t hco_t

lemma sqrt_four : Real.sqrt 4 = 2 := by
  rw [show (4:ℝ) = 2 ^ 2 by norm_num, Real.sqrt_sq (by norm_num : (0:ℝ) ≤ 2)]

/-! ## Basic lemmas about the iteration helpers -/

lemma mapIdxFrom_length (f : ℕ → body_t → body_t) (s : ℕ) (l : List body_t) :
    (mapIdxFrom f s l).length = l.length := by
  induction l generalizing s with
  | nil => rfl
  | cons b t ih => simp only [mapIdxFrom, List.length_cons, ih]

lemma getD_mapIdxFrom (f : ℕ → body_t → body_t) (s i : ℕ) (l : List body_t) (d : body_t)
    (h : i < l.length) :
    (mapIdxFrom f s l).getD i d = f (s + i) (l.getD i d) := by
  induction l generalizing s i with
  | nil => simp at h
  | cons b t ih =>
    cases i with
    | zero => simp [mapIdxFrom]
    | succ j =>
      have h2 : j < t.length := by simpa using h
      simp only [mapIdxFrom, List.getD_cons_succ]
      rw [ih (s + 1) j h2]
      congr 1
      omega

lemma getD_mapIdxFrom_default (f : ℕ → body_t → body_t) (s i : ℕ) (l : List body_t)
    (d : body_t) (h : l.length ≤ i) :
    (mapIdxFrom f s l).getD i d = d := by
  rw [List.getD_eq_default]
  rwa [mapIdxFrom_length]

lemma getD_mapIdxFrom_proj {α : Type} (p : body_t → α) (f : ℕ → body_t → body_t)
    (hp : ∀ i b, p (f i b) = p b) (s i : ℕ) (l : List body_t) :
    p ((mapIdxFrom f s l).getD i defaultBody) = p (l.getD i defaultBody) := by
  rcases lt_or_le i l.length with h | h
  · rw [getD_mapIdxFrom _ _ _ _ _ h, hp]
  · rw [getD_mapIdxFrom_default _ _ _ _ _ h, List.getD_eq_default _ _ h]

/-! ## Summation lemmas: the accumulation loops in exact arithmetic -/

lemma foldl_add_sum (g : ℕ → ℝ) (idx : List ℕ) (a : ℝ) :
    idx.foldl (fun acc i => acc + g i) a = a + (idx.map g).sum := by
  induction idx generalizing a with
  | nil => simp
  | cons i t ih => simp [ih, add_assoc]

lemma coo_total_mass_eq (obj : List body_t) (fromIdx uptoIdx : ℕ) :
    coo_total_mass obj fromIdx uptoIdx
      = ((List.range' fromIdx (uptoIdx - fromIdx)).map
          (fun i => (obj.getD i defaultBody).mass)).sum := by
  rw [coo_total_mass, foldl_add_sum, zero_add]

lemma csStep_foldl (obj : List body_t) (idx : List ℕ) :
    ∀ s : ℝ, idx.foldl (csStep obj) (0, s, s)
      = (0, s + (idx.map (fun i => (obj.getD i defaultBody).mass)).sum,
            s + (idx.map (fun i => (obj.getD i defaultBody).mass)).sum) := by
  induction idx with
  | nil => intro s; simp
  | cons i t ih =>
    intro s
    have hstep : csStep obj (0, s, s) i
        = (0, s + (obj.getD i defaultBody).mass, s + (obj.getD i defaultBody).mass) := by
      simp [csStep]
    rw [List.foldl_cons, hstep, ih]
    simp [add_assoc]

/-- In exact arithmetic the compensated sum equals the plain sum. -/
lemma coo_total_mass_cs_eq (obj : List body_t) (fromIdx uptoIdx : ℕ) :
    coo_total_mass_cs obj fromIdx uptoIdx = coo_total_mass obj fromIdx uptoIdx := by
  rw [coo_total_mass_cs, coo_total_mass_eq, csStep_foldl, zero_add]

lemma baryStep_foldl (sel : body_t → hco_t) (src : List body_t) (idx : List ℕ) :
    ∀ bc : hco_t, idx.foldl (baryStep sel src) bc =
      { pos := { x := bc.pos.x + (idx.map (fun i =>
                    (sel (src.getD i defaultBody)).pos.x * (src.getD i defaultBody).mass)).sum
                 y := bc.pos.y + (idx.map (fun i =>
                    (sel (src.getD i defaultBody)).pos.y * (src.getD i defaultBody).mass)).sum
                 z := bc.pos.z + (idx.map (fun i =>
                    (sel (src.getD i defaultBody)).pos.z * (src.getD i defaultBody).mass)).sum
                 abs := bc.pos.abs }
        vel := { x := bc.vel.x + (idx.map (fun i =>
                    (sel (src.getD i defaultBody)).vel.x * (src.getD i defaultBody).mass)).sum
                 y := bc.vel.y + (idx.map (fun i =>
                    (sel (src.getD i defaultBody)).vel.y * (src.getD i defaultBody).mass)).sum
                 z := bc.vel.z + (idx.map (fun i =>
                    (sel (src.getD i defaultBody)).vel.z * (src.getD i defaultBody).mass)).sum
                 abs := bc.vel.abs } } := by
  induction idx with
  | nil => intro bc; simp
  | cons i t ih =>
    intro bc
    rw [List.foldl_cons, ih]
    simp only [baryStep, vec3d_madd, List.map_cons, List.sum_cons, hco_t.mk.injEq,
      vec3d_t.mk.injEq, and_true, true_and]
    and_intros <;> first | rfl | ring

lemma get_barycenter_HCO_success (l : List body_t) (bc0 : hco_t) (fromIdx uptoIdx : ℕ)
    (h : fromIdx ≤ uptoIdx) :
    coo_get_barycenter false (some l) bc0 fromIdx uptoIdx COO_HCO
      = (0, specMassCenter (fun b => b.hco) l fromIdx uptoIdx) := by
  rw [coo_get_barycenter]
  simp only [Bool.false_eq_true, if_false, not_lt.mpr h, gt_iff_lt, if_neg (not_lt.mpr h)]
  rw [coo_get_barycenter.coo_get_barycenter_scale, getBarycenter_HCO, baryAccum,
    baryStep_foldl, coo_total_mass_cs_eq, coo_total_mass_eq]
  simp only [specMassCenter, vec3d_smul, hco_zero, Prod.mk.injEq, hco_t.mk.injEq,
    vec3d_t.mk.injEq]
  norm_num
  and_intros <;> ring

lemma get_barycenter_BCO_success (l : List body_t) (bc0 : hco_t) (fromIdx uptoIdx : ℕ)
    (h : fromIdx ≤ uptoIdx) :
    coo_get_barycenter false (some l) bc0 fromIdx uptoIdx COO_BCO
      = (0, specMassCenter (fun b => b.bco) l fromIdx uptoIdx) := by
  rw [coo_get_barycenter]
  simp only [Bool.false_eq_true, if_false, not_lt.mpr h, gt_iff_lt, if_neg (not_lt.mpr h)]
  rw [coo_get_barycenter.coo_get_barycenter_scale, getBarycenter_BCO, baryAccum,
    baryStep_foldl, coo_total_mass_cs_eq, coo_total_mass_eq]
  simp only [specMassCenter, vec3d_smul, hco_zero, Prod.mk.injEq, hco_t.mk.injEq,
    vec3d_t.mk.injEq]
  norm_num
  and_intros <;> ring

lemma sum_map_sub_mul (idx : List ℕ) (g m : ℕ → ℝ) (c : ℝ) :
    (idx.map (fun i => (g i - c) * m i)).sum
      = (idx.map (fun i => g i * m i)).sum - c * (idx.map m).sum := by
  induction idx with
  | nil => simp
  | cons i t ih => simp only [List.map_cons, List.sum_cons, ih]; ring

/-- Componentwise description of specMassCenter, by definitional unfolding. -/
lemma specMassCenter_comp (sel : body_t → hco_t) (l : List body_t) (f u : ℕ) :
    (specMassCenter sel l f u).pos.x
        = ((List.range' f (u - f)).map (fun i =>
            (sel (l.getD i defaultBody)).pos.x * (l.getD i defaultBody).mass)).sum
          / ((List.range' f (u - f)).map (fun i => (l.getD i defaultBody).mass)).sum ∧
    (specMassCenter sel l f u).pos.y
        = ((List.range' f (u - f)).map (fun i =>
            (sel (l.getD i defaultBody)).pos.y * (l.getD i defaultBody).mass)).sum
          / ((List.range' f (u - f)).map (fun i => (l.getD i defaultBody).mass)).sum ∧
    (specMassCenter sel l f u).pos.z
        = ((List.range' f (u - f)).map (fun i =>
            (sel (l.getD i defaultBody)).pos.z * (l.getD i defaultBody).mass)).sum
          / ((List.range' f (u - f)).map (fun i => (l.getD i defaultBody).mass)).sum ∧
    (specMassCenter sel l f u).vel.x
        = ((List.range' f (u - f)).map (fun i =>
            (sel (l.getD i defaultBody)).vel.x * (l.getD i defaultBody).mass)).sum
          / ((List.range' f (u - f)).map (fun i => (l.getD i defaultBody).mass)).sum ∧
    (specMassCenter sel l f u).vel.y
        = ((List.range' f (u - f)).map (fun i =>
            (sel (l.getD i defaultBody)).vel.y * (l.getD i defaultBody).mass)).sum
          / ((List.range' f (u - f)).map (fun i => (l.getD i defaultBody).mass)).sum ∧
    (specMassCenter sel l f u).vel.z
        = ((List.range' f (u - f)).map (fun i =>
            (sel (l.getD i defaultBody)).vel.z * (l.getD i defaultBody).mass)).sum
          / ((List.range' f (u - f)).map (fun i => (l.getD i defaultBody).mass)).sum ∧
    (specMassCenter sel l f u).pos.abs = 0 ∧ (specMassCenter sel l f u).vel.abs = 0 :=
  ⟨rfl, rfl, rfl, rfl, rfl, rfl, rfl, rfl⟩

/-! ## Per-converter frame lemmas -/

lemma bco2hco_preserves {α : Type} (p : body_t → α) (l : List body_t) (dim center i : ℕ)
    (hp : ∀ b v, p { b with hco := v } = p b) :
    p ((bco2hco (some l) dim center).2.getD i defaultBody) = p (l.getD i defaultBody) := by
  rw [bco2hco]
  by_cases h : dim < center
  · simp [h]
  · simp only [h, if_false]
    exact getD_mapIdxFrom_proj p _ (by intro j b; by_cases hj : j < dim <;> simp [hj, hp]) 0 i l

lemma hco2bco_eq (l : List body_t) (dim center : ℕ) (h : ¬ dim < center) :
    hco2bco (some l) dim center
      = (0, mapIdxFrom (fun i b =>
          if i < dim then
            { b with bco := coo_recenter b.bco b.hco (specMassCenter (fun b => b.hco) l 0 dim) }
          else b) 0 l) := by
  rw [hco2bco]
  simp only [h, if_false, get_barycenter_HCO_success l hco_zero 0 dim (Nat.zero_le dim)]
  norm_num

lemma hco2bco_preserves {α : Type} (p : body_t → α) (l : List body_t) (dim center i : ℕ)
    (hp : ∀ b v, p { b with bco := v } = p b) :
    p ((hco2bco (some l) dim center).2.getD i defaultBody) = p (l.getD i defaultBody) := by
  by_cases h : dim < center
  · rw [hco2bco]
    simp [h]
  · rw [hco2bco_eq l dim center h]
    apply getD_mapIdxFrom_proj
    intro j b
    by_cases hj : j < dim <;> simp [hj, hp]

lemma hco2hel_preserves {α : Type} (p : body_t → α) (l : List body_t) (dim center i : ℕ)
    (hp : ∀ b v, p { b with hel := v } = p b) :
    p ((hco2hel (some l) dim center).2.getD i defaultBody) = p (l.getD i defaultBody) := by
  rw [hco2hel]
  by_cases h : dim < center
  · simp [h]
  · simp only [h, if_false]
    rw [getD_mapIdxFrom_proj p _
      (by intro j b
          by_cases hj : j < dim ∧ j ≠ center <;> simp [hj, hp]) 0 i]
    exact getD_mapIdxFrom_proj p _ (by intro j b; by_cases hj : j = center <;> simp [hj, hp]) 0 i l

lemma hel2hco_preserves {α : Type} (p : body_t → α) (l : List body_t) (dim center i : ℕ)
    (hp : ∀ b v, p { b with hco := v } = p b) :
    p ((hel2hco (some l) dim center).2.getD i defaultBody) = p (l.getD i defaultBody) := by
  rw [hel2hco]
  by_cases h : dim < center
  · simp [h]
  · simp only [h, if_false]
    rw [getD_mapIdxFrom_proj p _
      (by intro j b
          by_cases hj : j < dim ∧ j ≠ center <;> simp [hj, hp]) 0 i]
    exact getD_mapIdxFrom_proj p _ (by intro j b; by_cases hj : j = center <;> simp [hj, hp]) 0 i l

/-- Claim C10: each elementary converter writes only its single target
field (hco for bco2hco and hel2hco, bco for hco2bco, hel for hco2hel);
every body's mass and every other coordinate/element field is unchanged. -/
theorem claim_C10 (l : List body_t) (dim center i : ℕ) :
    (((bco2hco (some l) dim center).2.getD i defaultBody).mass = (l.getD i defaultBody).mass ∧
     ((bco2hco (some l) dim center).2.getD i defaultBody).bco = (l.getD i defaultBody).bco ∧
     ((bco2hco (some l) dim center).2.getD i defaultBody).jco = (l.getD i defaultBody).jco ∧
     ((bco2hco (some l) dim center).2.getD i defaultBody).pco = (l.getD i defaultBody).pco ∧
     ((bco2hco (some l) dim center).2.getD i defaultBody).rco = (l.getD i defaultBody).rco ∧
     ((bco2hco (some l) dim center).2.getD i defaultBody).del = (l.getD i defaultBody).del ∧
     ((bco2hco (some l) dim center).2.getD i defaultBody).hel = (l.getD i defaultBody).hel) ∧
    (((hco2bco (some l) dim center).2.getD i defaultBody).mass = (l.getD i defaultBody).mass ∧
     ((hco2bco (some l) dim center).2.getD i defaultBody).hco = (l.getD i defaultBody).hco ∧
     ((hco2bco (some l) dim center).2.getD i defaultBody).jco = (l.getD i defaultBody).jco ∧
     ((hco2bco (some l) dim center).2.getD i defaultBody).pco = (l.getD i defaultBody).pco ∧
     ((hco2bco (some l) dim center).2.getD i defaultBody).rco = (l.getD i defaultBody).rco ∧
     ((hco2bco (some l) dim center).2.getD i defaultBody).del = (l.getD i defaultBody).del ∧
     ((hco2bco (some l) dim center).2.getD i defaultBody).hel = (l.getD i defaultBody).hel) ∧
    (((hco2hel (some l) dim center).2.getD i defaultBody).mass = (l.getD i defaultBody).mass ∧
     ((hco2hel (some l) dim center).2.getD i defaultBody).bco = (l.getD i defaultBody).bco ∧
     ((hco2hel (some l) dim center).2.getD i defaultBody).hco = (l.getD i defaultBody).hco ∧
     ((hco2hel (some l) dim center).2.getD i defaultBody).jco = (l.getD i defaultBody).jco ∧
     ((hco2hel (some l) dim center).2.getD i defaultBody).pco = (l.getD i defaultBody).pco ∧
     ((hco2hel (some l) dim center).2.getD i defaultBody).rco = (l.getD i defaultBody).rco ∧
     ((hco2hel (some l) dim center).2.getD i defaultBody).del = (l.getD i defaultBody).del) ∧
    (((hel2hco (some l) dim center).2.getD i defaultBody).mass = (l.getD i defaultBody).mass ∧
     ((hel2hco (some l) dim center).2.getD i defaultBody).bco = (l.getD i defaultBody).bco ∧
     ((hel2hco (some l) dim center).2.getD i defaultBody).jco = (l.getD i defaultBody).jco ∧
     ((hel2hco (some l) dim center).2.getD i defaultBody).pco = (l.getD i defaultBody).pco ∧
     ((hel2hco (some l) dim center).2.getD i defaultBody).rco = (l.getD i defaultBody).rco ∧
     ((hel2hco (some l) dim center).2.getD i defaultBody).del = (l.getD i defaultBody).del ∧
     ((hel2hco (some l) dim center).2.getD i defaultBody).hel = (l.getD i defaultBody).hel) := by
  refine ⟨⟨?_, ?_, ?_, ?_, ?_, ?_, ?_⟩, ⟨?_, ?_, ?_, ?_, ?_, ?_, ?_⟩,
    ⟨?_, ?_, ?_, ?_, ?_, ?_, ?_⟩, ⟨?_, ?_, ?_, ?_, ?_, ?_, ?_⟩⟩
  any_goals exact bco2hco_preserves _ l dim center i (fun b v => rfl)
  any_goals exact hco2bco_preserves _ l dim center i (fun b v => rfl)
  any_goals exact hco2hel_preserves _ l dim center i (fun b v => rfl)
  any_goals exact hel2hco_preserves _ l dim center i (fun b v => rfl)

/-- Claim C3 (amended): on success, bco2hco, hel2hco and hco2hel write the
zero state (zero position and velocity components, or the all-zero element
record) into the central body's target field; hco2bco is excluded. -/
theorem claim_C3_amended (l : List body_t) (dim center : ℕ)
    (h1 : center < dim) (h2 : dim ≤ l.length) :
    (((bco2hco (some l) dim center).2.getD center defaultBody).hco.pos.x = 0 ∧
     ((bco2hco (some l) dim center).2.getD center defaultBody).hco.pos.y = 0 ∧
     ((bco2hco (some l) dim center).2.getD center defaultBody).hco.pos.z = 0 ∧
     ((bco2hco (some l) dim center).2.getD center defaultBody).hco.vel.x = 0 ∧
     ((bco2hco (some l) dim center).2.getD center defaultBody).hco.vel.y = 0 ∧
     ((bco2hco (some l) dim center).2.getD center defaultBody).hco.vel.z = 0) ∧
    ((hel2hco (some l) dim center).2.getD center defaultBody).hco = hco_zero ∧
    ((hco2hel (some l) dim center).2.getD center defaultBody).hel = hel_zero := by
  have hcl : center < l.length := lt_of_lt_of_le h1 h2
  have hnd : ¬ dim < center := not_lt.mpr (le_of_lt h1)
  refine ⟨?_, ?_, ?_⟩
  · rw [bco2hco]
    simp only [hnd, if_false]
    rw [getD_mapIdxFrom _ _ _ _ _ hcl]
    simp [h1, coo_recenter, vec3d_sub]
  · rw [hel2hco]
    simp only [hnd, if_false]
    rw [getD_mapIdxFrom _ _ _ _ _ (by rwa [mapIdxFrom_length])]
    simp only [Nat.zero_add]
    rw [if_neg (by simp)]
    rw [getD_mapIdxFrom _ _ _ _ _ hcl]
    simp
  · rw [hco2hel]
    simp only [hnd, if_false]
    rw [getD_mapIdxFrom _ _ _ _ _ (by rwa [mapIdxFrom_length])]
    simp only [Nat.zero_add]
    rw [if_neg (by simp)]
    rw [getD_mapIdxFrom _ _ _ _ _ hcl]
    simp

/-- Claim C3 (counterexample): hco2bco succeeds on a two-body population
(masses 1 and 1, central body at the heliocentric origin, body 1 at
position (2,0,0)) yet the central body's barycentric output is
(-1,0,0), not the zero state. -/
theorem claim_C3_counterexample :
    (hco2bco (some popC3) 2 0).1 = 0 ∧
    ((hco2bco (some popC3) 2 0).2.getD 0 defaultBody).bco.pos.x = -1 := by
  norm_num [hco2bco, popC3, coo_get_barycenter, coo_get_barycenter.coo_get_barycenter_scale,
    getBarycenter_HCO, baryAccum, baryStep, csStep, coo_total_mass_cs, vec3d_madd, vec3d_smul,
    hco_zero, defaultBody, List.range', mapIdxFrom, coo_recenter, vec3d_sub]

/-- Claim C3 (witness for the amended theorem): the amended statement at a
concrete two-body population with central index 0. -/
theorem claim_C3_witness :
    ((0 : ℕ) < 2 ∧ 2 ≤ (popC3 : List body_t).length) ∧
    ((((bco2hco (some popC3) 2 0).2.getD 0 defaultBody).hco.pos.x = 0 ∧
      ((bco2hco (some popC3) 2 0).2.getD 0 defaultBody).hco.pos.y = 0 ∧
      ((bco2hco (some popC3) 2 0).2.getD 0 defaultBody).hco.pos.z = 0 ∧
      ((bco2hco (some popC3) 2 0).2.getD 0 defaultBody).hco.vel.x = 0 ∧
      ((bco2hco (some popC3) 2 0).2.getD 0 defaultBody).hco.vel.y = 0 ∧
      ((bco2hco (some popC3) 2 0).2.getD 0 defaultBody).hco.vel.z = 0) ∧
     ((hel2hco (some popC3) 2 0).2.getD 0 defaultBody).hco = hco_zero ∧
     ((hco2hel (some popC3) 2 0).2.getD 0 defaultBody).hel = hel_zero) :=
  ⟨⟨by norm_num, by norm_num [popC3]⟩,
   claim_C3_amended popC3 2 0 (by norm_num) (by norm_num [popC3])⟩

/-- Claim C4 (amended): coo_get_barycenter returns its error indicator
exactly for a null pointer, a reversed index range (fromIdx > uptoIdx), or
a coordinate type other than the four Cartesian ones; an empty range or a
non-positive total mass is not detected.  On the heliocentric success path
the result is the accumulated sums scaled by the reciprocal of the
compensated total mass, i.e. the mass-weighted center, whatever the total
mass is. -/
theorem claim_C4_amended :
    (∀ (bcNull : Bool) (src : Option (List body_t)) (bc0 : hco_t)
       (fromIdx uptoIdx : ℕ) (type : COO_TYPE_e),
      (coo_get_barycenter bcNull src bc0 fromIdx uptoIdx type).1 = 0 ↔
        (bcNull = false ∧ src ≠ none ∧ fromIdx ≤ uptoIdx ∧
          (type = COO_BCO ∨ type = COO_HCO ∨ type = COO_JCO ∨ type = COO_PCO))) ∧
    (∀ (l : List body_t) (bc0 : hco_t) (fromIdx uptoIdx : ℕ),
      (coo_get_barycenter false (some l) bc0 fromIdx uptoIdx COO_HCO).2 =
        if fromIdx ≤ uptoIdx then specMassCenter (fun b => b.hco) l fromIdx uptoIdx
        else bc0) := by
  constructor
  · intro bcNull src bc0 fromIdx uptoIdx type
    cases bcNull
    · cases src with
      | none => simp [coo_get_barycenter]
      | some l =>
        by_cases h : fromIdx ≤ uptoIdx
        · cases type <;>
            simp [coo_get_barycenter, coo_get_barycenter.coo_get_barycenter_scale,
              not_lt.mpr h, h]
        · cases type <;> simp [coo_get_barycenter, lt_of_not_le h, h]
    · simp [coo_get_barycenter]
  · intro l bc0 fromIdx uptoIdx
    by_cases h : fromIdx ≤ uptoIdx
    · rw [if_pos h, get_barycenter_HCO_success l bc0 fromIdx uptoIdx h]
    · rw [if_neg h, coo_get_barycenter]
      simp [lt_of_not_le h]

/-- Claim C4 (counterexample): with valid pointers but an empty index range
(and hence zero total mass in the range) the function returns the success
indicator 0, not the error indicator, contradicting the claimed
precondition check. -/
theorem claim_C4_counterexample :
    (coo_get_barycenter false (some [defaultBody]) hco_zero 0 0 COO_HCO).1 = 0 ∧
    (coo_get_barycenter false (some [defaultBody]) hco_zero 0 0 COO_HCO).1 ≠ 1 := by
  constructor <;>
    norm_num [coo_get_barycenter, coo_get_barycenter.coo_get_barycenter_scale,
      getBarycenter_HCO, baryAccum, List.range']

/-- Claim C5 (code divergence): the dispatcher validates the central index
with dim < center, so the out-of-bounds index center = dim passes the
check; with a one-element population, dim = 1 and center = 1 the call
dispatches to bco2hco (reading past the end of the array, undefined
behaviour in C) and returns 0, not the claimed error value 1. -/
theorem claim_C5_code_divergence :
    (coocvt (some [defaultBody]) 1 1 CVT_BCO2HCO).1 = 0 ∧
    (coocvt (some [defaultBody]) 1 1 CVT_BCO2HCO).1 ≠ 1 := by
  constructor <;> norm_num [coocvt, bco2hco, mapIdxFrom]

/-- Claim C2 (code divergence): on a two-body population whose non-central
body has vis-viva 1/a = 2/1 - 4 = -2 <= 0 (position (1,0,0) AU, velocity
(2,0,0) AU/day, mass parameter mu = 1), the per-body core hco2hel_core
reports the validation failure 1, but the whole-population hco2hel
discards that value and returns success 0. -/
theorem claim_C2_code_divergence :
    (hco2hel (some popC2) 2 0).1 = 0 ∧
    (hco2hel_core hel_zero ⟨⟨1, 0, 0, 0⟩, ⟨2, 0, 0, 0⟩⟩
      (gaussk2 * ((popC2.getD 0 defaultBody).mass + (popC2.getD 1 defaultBody).mass))).1
      = 1 := by
  constructor
  · norm_num [hco2hel, mapIdxFrom, popC2]
  · have hmu : gaussk2 * ((popC2.getD 0 defaultBody).mass + (popC2.getD 1 defaultBody).mass)
        = 1 := by
      norm_num [popC2, defaultBody, gaussk2]
    rw [hmu]
    norm_num [hco2hel_core, vec3d_abs, vec3d_smul, vec3d_outer, vec3d_inner, v3d_zero,
      Real.sqrt_one, sqrt_four]

/-- Claim C9: for a population with positive total mass, after a successful
hco2bco conversion the mass-weighted barycenter of the produced barycentric
coordinates over the whole population (coo_get_barycenter with COO_BCO) is
the zero state, in exact arithmetic. -/
theorem claim_C9 (l : List body_t) (center : ℕ) (bc0 : hco_t)
    (hcen : center ≤ l.length) (hm : 0 < coo_total_mass l 0 l.length) :
    coo_get_barycenter false (some (hco2bco (some l) l.length center).2) bc0 0 l.length
      COO_BCO = (0, hco_zero) := by
  have hnl : ¬ (l.length < center) := not_lt.mpr hcen
  set BC := specMassCenter (fun b => b.hco) l 0 l.length with hBC
  have hnew : (hco2bco (some l) l.length center).2
      = mapIdxFrom (fun i b =>
          if i < l.length then { b with bco := coo_recenter b.bco b.hco BC } else b) 0 l := by
    rw [hco2bco_eq l l.length center hnl]
  rw [get_barycenter_BCO_success _ bc0 0 l.length (Nat.zero_le _), hnew]
  have hmem : ∀ i ∈ List.range' 0 (l.length - 0), i < l.length := by
    intro i hi
    have := List.mem_range'_1.mp hi
    omega
  have hMs_pos :
      0 < ((List.range' 0 (l.length - 0)).map (fun i => (l.getD i defaultBody).mass)).sum := by
    rw [← coo_total_mass_eq]
    exact hm
  have key : ∀ c : hco_t → ℝ,
      (∀ dest s cen : hco_t, c (coo_recenter dest s cen) = c s - c cen) →
      c BC = ((List.range' 0 (l.length - 0)).map (fun i =>
        c (l.getD i defaultBody).hco * (l.getD i defaultBody).mass)).sum
        / ((List.range' 0 (l.length - 0)).map (fun i => (l.getD i defaultBody).mass)).sum →
      ((List.range' 0 (l.length - 0)).map (fun i =>
        c ((mapIdxFrom (fun i b =>
            if i < l.length then { b with bco := coo_recenter b.bco b.hco BC } else b)
            0 l).getD i defaultBody).bco
          * ((mapIdxFrom (fun i b =>
            if i < l.length then { b with bco := coo_recenter b.bco b.hco BC } else b)
            0 l).getD i defaultBody).mass)).sum = 0 := by
    intro c hc hcBC
    have hpt : ∀ i ∈ List.range' 0 (l.length - 0),
        c ((mapIdxFrom (fun i b =>
            if i < l.length then { b with bco := coo_recenter b.bco b.hco BC } else b)
            0 l).getD i defaultBody).bco
          * ((mapIdxFrom (fun i b =>
            if i < l.length then { b with bco := coo_recenter b.bco b.hco BC } else b)
            0 l).getD i defaultBody).mass
        = (c (l.getD i defaultBody).hco - c BC) * (l.getD i defaultBody).mass := by
      intro i hi
      rw [getD_mapIdxFrom _ _ _ _ _ (hmem i hi)]
      simp only [Nat.zero_add, if_pos (hmem i hi), hc]
    rw [List.map_congr_left hpt, sum_map_sub_mul, hcBC,
      div_mul_cancel₀ _ (ne_of_gt hMs_pos)]
    ring
  have hBCc := specMassCenter_comp (fun b => b.hco) l 0 l.length
  have k1 := key (fun h => h.pos.x)
    (by intro dest s cen; simp [coo_recenter, vec3d_sub]) hBCc.1
  have k2 := key (fun h => h.pos.y)
    (by intro dest s cen; simp [coo_recenter, vec3d_sub]) hBCc.2.1
  have k3 := key (fun h => h.pos.z)
    (by intro dest s cen; simp [coo_recenter, vec3d_sub]) hBCc.2.2.1
  have k4 := key (fun h => h.vel.x)
    (by intro dest s cen; simp [coo_recenter, vec3d_sub]) hBCc.2.2.2.1
  have k5 := key (fun h => h.vel.y)
    (by intro dest s cen; simp [coo_recenter, vec3d_sub]) hBCc.2.2.2.2.1
  have k6 := key (fun h => h.vel.z)
    (by intro dest s cen; simp [coo_recenter, vec3d_sub]) hBCc.2.2.2.2.2.1
  have hres := specMassCenter_comp (fun b => b.bco)
    (mapIdxFrom (fun i b =>
      if i < l.length then { b with bco := coo_recenter b.bco b.hco BC } else b) 0 l)
    0 l.length
  refine Prod.ext rfl ?_
  have h1 := hres.1
  rw [k1, zero_div] at h1
  have h2 := hres.2.1
  rw [k2, zero_div] at h2
  have h3 := hres.2.2.1
  rw [k3, zero_div] at h3
  have h4 := hres.2.2.2.1
  rw [k4, zero_div] at h4
  have h5 := hres.2.2.2.2.1
  rw [k5, zero_div] at h5
  have h6 := hres.2.2.2.2.2.1
  rw [k6, zero_div] at h6
  have h7 := hres.2.2.2.2.2.2.1
  have h8 := hres.2.2.2.2.2.2.2
  ext1
  · ext1 <;> simp [h1, h2, h3, h4, h5, h6, h7, h8, hco_zero]
  · ext1 <;> simp [h1, h2, h3, h4, h5, h6, h7, h8, hco_zero]

/-- Claim C9 (witness): the barycenter invariance at a concrete two-body
population with masses 1 and 1. -/
theorem claim_C9_witness :
    ((0 : ℕ) ≤ popC9.length ∧ 0 < coo_total_mass popC9 0 popC9.length) ∧
    coo_get_barycenter false (some (hco2bco (some popC9) popC9.length 0).2) hco_zero 0
      popC9.length COO_BCO = (0, hco_zero) :=
  ⟨⟨by norm_num [popC9],
    by norm_num [coo_total_mass, popC9, List.range', defaultBody]⟩,
   claim_C9 popC9 0 hco_zero (by norm_num [popC9])
     (by norm_num [coo_total_mass, popC9, List.range', defaultBody])⟩

/-! ## Kepler solver lemmas -/

lemma pi_sq_gt_six : 6 < M_PI * M_PI := by
  have h := Real.pi_gt_three
  simp only [M_PI]
  nlinarith

lemma M_2PI_pos : 0 < M_2PI := by
  simp only [M_2PI, M_PI]
  positivity

lemma cbrt_cube (t : ℝ) (ht : 0 ≤ t) : cbrt (t ^ 3) = t := by
  have h3 : (0:ℝ) ≤ t ^ 3 := by positivity
  simp only [cbrt, if_pos h3]
  rw [← Real.rpow_natCast t 3, ← Real.rpow_mul ht]
  norm_num

lemma coo_sincos_zero_ecc (x : ℝ) : coo_sincos x 0 = (0, 0) := by
  simp [coo_sincos]

/-- With eccentricity zero the quintic pass reduces to a single regularized
Newton step on the identity equation. -/
lemma itercore_e0 (ma x : ℝ) : itercore 0 ma x = x + (ma - x) / (1 + addzero) := by
  simp only [itercore, coo_sincos_zero_ecc]
  norm_num

lemma markley_e0 (ma : ℝ) : markley 0 ma
    = markleyStarter 0 ma + (ma - markleyStarter 0 ma) / (1 + addzero) := by
  rw [markley, itercore_e0]

/-- One quintic pass started exactly at the solution x = ma = pi returns pi:
the residual f0 vanishes there (the half-angle tangent is the junk value 0
of the real model at the pole, and the sine part is annihilated by it). -/
lemma itercore_pi (ecc : ℝ) (he : 0 ≤ ecc) : itercore ecc M_PI M_PI = M_PI := by
  have htan : Real.tan (0.5 * M_PI) = 0 := by
    rw [show (0.5 : ℝ) * M_PI = Real.pi / 2 by rw [M_PI]; ring]
    exact Real.tan_pi_div_two
  simp only [itercore, coo_sincos, htan, if_pos he]
  norm_num

/-! ## reduce: branch analysis -/

lemma M_PI_pos : (0:ℝ) < M_PI := by
  simp only [M_PI]
  exact Real.pi_pos

lemma M_PI_lt_M_2PI : M_PI < M_2PI := by
  simp only [M_2PI]
  linarith [M_PI_pos]

lemma reduce_eq_self (x : ℝ) (h0 : 0 ≤ x) (h1 : x ≤ M_PI) : reduce x = x := by
  have h2pi : 0 < M_2PI := M_2PI_pos
  have hpipos := M_PI_pos
  have hpi := M_PI_lt_M_2PI
  have hfl : ⌊x / M_2PI⌋ = 0 := by
    rw [Int.floor_eq_iff]
    push_cast
    refine ⟨by positivity, ?_⟩
    rw [show (0:ℝ) + 1 = 1 by ring, div_lt_one h2pi]
    linarith
  simp only [reduce, hfl, Int.cast_zero, zero_mul, sub_zero]
  rw [if_neg (show ¬ x > M_PI by simp only [gt_iff_lt, not_lt]; linarith)]
  rw [if_neg (show ¬ x < -M_PI by simp only [not_lt]; linarith)]

lemma reduce_neg_of_lt_pi (x : ℝ) (h0 : 0 < x) (h1 : x < M_PI) : reduce (-x) = -x := by
  have h2pi : 0 < M_2PI := M_2PI_pos
  have hpipos := M_PI_pos
  have hpi := M_PI_lt_M_2PI
  have hfl : ⌊(-x) / M_2PI⌋ = -1 := by
    rw [Int.floor_eq_iff]
    push_cast
    constructor
    · rw [le_div_iff₀ h2pi]
      nlinarith
    · rw [show (-1:ℝ) + 1 = 0 by ring, div_lt_iff₀ h2pi]
      nlinarith
  simp only [reduce, hfl, Int.cast_neg, Int.cast_one]
  rw [if_pos (show -x - -1 * M_2PI > M_PI by simp only [gt_iff_lt, M_2PI] at *; nlinarith)]
  rw [if_neg (show ¬ -x - -1 * M_2PI - M_2PI < -M_PI by simp only [not_lt]; nlinarith)]
  ring

lemma reduce_of_pi_lt (x : ℝ) (h0 : M_PI < x) (h1 : x < M_2PI) : reduce x = x - M_2PI := by
  have h2pi : 0 < M_2PI := M_2PI_pos
  have hpipos := M_PI_pos
  have hpi := M_PI_lt_M_2PI
  have hfl : ⌊x / M_2PI⌋ = 0 := by
    rw [Int.floor_eq_iff]
    push_cast
    refine ⟨div_nonneg (by linarith) (le_of_lt h2pi), ?_⟩
    rw [show (0:ℝ) + 1 = 1 by ring, div_lt_one h2pi]
    linarith
  simp only [reduce, hfl, Int.cast_zero, zero_mul, sub_zero]
  rw [if_pos (show x > M_PI by exact h0)]
  rw [if_neg (show ¬ x - M_2PI < -M_PI by simp only [not_lt, M_2PI] at *; nlinarith)]

lemma reduce_neg_of_pi_lt (x : ℝ) (h0 : M_PI < x) (h1 : x < M_2PI) :
    reduce (-x) = M_2PI - x := by
  have h2pi : 0 < M_2PI := M_2PI_pos
  have hpipos := M_PI_pos
  have hpi := M_PI_lt_M_2PI
  have hfl : ⌊(-x) / M_2PI⌋ = -1 := by
    rw [Int.floor_eq_iff]
    push_cast
    constructor
    · rw [le_div_iff₀ h2pi]
      nlinarith
    · rw [show (-1:ℝ) + 1 = 0 by ring, div_lt_iff₀ h2pi]
      nlinarith
  simp only [reduce, hfl, Int.cast_neg, Int.cast_one]
  rw [if_neg (show ¬ -x - -1 * M_2PI > M_PI by
    simp only [gt_iff_lt, not_lt, M_2PI] at *
    nlinarith)]
  rw [if_neg (show ¬ -x - -1 * M_2PI < -M_PI by
    simp only [not_lt, M_2PI] at *
    nlinarith)]
  ring

lemma reduce_neg_pi : reduce (-M_PI) = M_PI := by
  have h2pi : 0 < M_2PI := M_2PI_pos
  have hpipos := M_PI_pos
  have hfl : ⌊(-M_PI) / M_2PI⌋ = -1 := by
    rw [Int.floor_eq_iff]
    push_cast
    constructor
    · rw [le_div_iff₀ h2pi]
      simp only [M_2PI]
      nlinarith
    · rw [show (-1:ℝ) + 1 = 0 by ring, div_lt_iff₀ h2pi]
      nlinarith
  simp only [reduce, hfl, Int.cast_neg, Int.cast_one]
  rw [if_neg (show ¬ -M_PI - -1 * M_2PI > M_PI by
    simp only [gt_iff_lt, not_lt, M_2PI]
    nlinarith)]
  rw [if_neg (show ¬ -M_PI - -1 * M_2PI < -M_PI by
    simp only [not_lt, M_2PI]
    nlinarith)]
  simp only [M_2PI]
  ring

/-! ## Exactness of the Markley starter at eccentricity zero.
For e = 0 the starter cubic y^3 + 3qy = 2r has the exact root y = 2M for
every M (q = 6a - M^2, r = 18aM + M^3), and the Cardano expression in the
code evaluates to exactly that root, so E0 = (2M + M)/3 = M. -/

lemma pisq_sub_six_pos : 0 < M_PISQ - 6 := by
  simp only [M_PISQ]
  linarith [pi_sq_gt_six]

lemma markley_a_e0_eq (M : ℝ) :
    markley_a 0 M * (M_PISQ - 6) = 3 * M_PISQ + 1.6 * M_PI * (M_PI - M) := by
  have h6 := pisq_sub_six_pos
  simp only [markley_a]
  field_simp

lemma markley_a_e0_pos (M : ℝ) (h1 : M ≤ M_PI) : 0 < markley_a 0 M := by
  have h6 := pisq_sub_six_pos
  have hA := markley_a_e0_eq M
  have hpip := M_PI_pos
  have hN : 0 < 3 * M_PISQ + 1.6 * M_PI * (M_PI - M) := by
    simp only [M_PISQ]
    nlinarith [pi_sq_gt_six]
  nlinarith [hA]

lemma markleyStarter_e0 (M : ℝ) (h0 : 0 ≤ M) (h1 : M ≤ M_PI) :
    markleyStarter 0 M = M := by
  set A := markley_a 0 M with hAdef
  have hApos : 0 < A := markley_a_e0_pos M h1
  have hd : markley_d 0 M = 3 := by
    rw [markley_d]
    ring
  have hq : markley_q 0 M = 6 * A - M * M := by
    rw [markley_q, hd]
    ring
  have hr : markley_r 0 M = 18 * A * M + M * M * M := by
    rw [markley_r, hd]
    ring
  set B := Real.sqrt (6 * A) with hBdef
  have hB0 : 0 ≤ B := Real.sqrt_nonneg _
  have hB2 : B * B = 6 * A := Real.mul_self_sqrt (by linarith)
  have hBpos : 0 < B := Real.sqrt_pos.mpr (by linarith)
  have hr_nonneg : 0 ≤ markley_r 0 M := by
    rw [hr]
    nlinarith [mul_nonneg (mul_nonneg (by norm_num : (0:ℝ) ≤ 18) (le_of_lt hApos)) h0,
      mul_nonneg (mul_nonneg h0 h0) h0]
  have hX : markley_q 0 M * markley_q 0 M * markley_q 0 M
      + markley_r 0 M * markley_r 0 M = (3 * (2 * A + M * M) * B) ^ 2 := by
    rw [hq, hr]
    linear_combination (-9 * (2 * A + M * M) ^ 2) * hB2
  have h3b : (0:ℝ) ≤ 3 * (2 * A + M * M) * B :=
    mul_nonneg (by nlinarith [sq_nonneg M]) hB0
  have hs : Real.sqrt (markley_q 0 M * markley_q 0 M * markley_q 0 M
      + markley_r 0 M * markley_r 0 M) = 3 * (2 * A + M * M) * B := by
    rw [hX, Real.sqrt_sq h3b]
  have hcube : |markley_r 0 M| + Real.sqrt (markley_q 0 M * markley_q 0 M * markley_q 0 M
      + markley_r 0 M * markley_r 0 M) = (M + B) ^ 3 := by
    rw [abs_of_nonneg hr_nonneg, hs, hr]
    linear_combination (-(3 * M + B)) * hB2
  have hw0 : cbrt (|markley_r 0 M| + Real.sqrt (markley_q 0 M * markley_q 0 M * markley_q 0 M
      + markley_r 0 M * markley_r 0 M)) = M + B := by
    rw [hcube]
    exact cbrt_cube _ (by linarith)
  have hw : markley_w 0 M = (M + B) * (M + B) := by
    rw [markley_w, hw0]
  have hMB : 0 < M + B := by linarith
  have hwpos : markley_w 0 M > 0 := by
    rw [hw]
    exact mul_pos hMB hMB
  have hq6 : markley_q 0 M = B * B - M * M := by
    rw [hq, ← hB2]
  have hr6 : markley_r 0 M = 3 * (B * B) * M + M * M * M := by
    rw [hr]
    linear_combination (-(3 * M)) * hB2
  rw [markleyStarter, if_pos hwpos, hw, hq6, hr6, hd]
  have hden : (M + B) * (M + B) * ((M + B) * (M + B))
      + (B * B - M * M) * ((M + B) * (M + B)) + (B * B - M * M) * (B * B - M * M)
      = ((M + B) * (M + B)) * (M * M + 3 * (B * B)) := by
    ring
  rw [hden]
  have h1ne : (M + B) * (M + B) ≠ 0 := ne_of_gt (mul_pos hMB hMB)
  have h2ne : M * M + 3 * (B * B) ≠ 0 := by nlinarith [sq_nonneg M, mul_pos hBpos hBpos]
  field_simp
  ring

lemma markley_e0_exact (M : ℝ) (h0 : 0 ≤ M) (h1 : M ≤ M_PI) : markley 0 M = M := by
  rw [markley, markleyStarter_e0 M h0 h1, itercore_e0]
  have : 1 + addzero ≠ 0 := by norm_num [addzero]
  field_simp

lemma reduce_spec (x : ℝ) :
    ∃ k : ℤ, reduce x = x - M_2PI * k ∧ -M_PI < reduce x ∧ reduce x ≤ M_PI := by
  have h2pi := M_2PI_pos
  have hpip := M_PI_pos
  have hpilt := M_PI_lt_M_2PI
  have h2rel : M_2PI = M_PI + M_PI := rfl
  set n := ⌊x / M_2PI⌋ with hn
  have hx1a : 0 ≤ x - n * M_2PI := by
    have h := Int.floor_le (x / M_2PI)
    rw [← hn, le_div_iff₀ h2pi] at h
    linarith
  have hx1b : x - n * M_2PI < M_2PI := by
    have h := Int.lt_floor_add_one (x / M_2PI)
    rw [← hn, div_lt_iff₀ h2pi] at h
    nlinarith
  simp only [reduce, ← hn]
  split_ifs with h1 h2 h2
  · exfalso
    simp only [gt_iff_lt] at h1
    linarith
  · refine ⟨n + 1, ?_, ?_, ?_⟩
    · push_cast
      ring
    · simp only [gt_iff_lt] at h1
      linarith
    · linarith
  · exfalso
    linarith
  · refine ⟨n, ?_, ?_, ?_⟩
    · ring
    · linarith
    · simp only [gt_iff_lt, not_lt] at h1
      linarith

/-- Claim C8: for eccentricity zero the solver is exact: it returns the
mean anomaly reduced into [0, 2 pi), i.e. E = M (mod 2 pi) exactly.  The
Markley starter cubic is solved exactly by E0 = M when e = 0, and the
quintic correction pass then has residual exactly zero. -/
theorem claim_C8 (M : ℝ) :
    (∃ k : ℤ, coo_kesolver 0 M = M + 2 * Real.pi * k) ∧
    0 ≤ coo_kesolver 0 M ∧ coo_kesolver 0 M < 2 * Real.pi := by
  have h2eq : M_2PI = 2 * Real.pi := by
    simp only [M_2PI, M_PI]
    ring
  have hpieq : M_PI = Real.pi := rfl
  have hpip := M_PI_pos
  obtain ⟨k, hred, hlo, hhi⟩ := reduce_spec M
  rw [coo_kesolver]
  by_cases hmr : reduce M < 0
  · rw [if_pos hmr]
    rw [markley_e0_exact (-reduce M) (by linarith) (by linarith)]
    refine ⟨⟨1 - k, ?_⟩, ?_, ?_⟩
    · rw [hred]
      push_cast
      rw [h2eq]
      ring
    · rw [h2eq] at *
      linarith
    · rw [h2eq] at *
      linarith
  · rw [if_neg hmr]
    push_neg at hmr
    rw [markley_e0_exact (reduce M) hmr (by linarith)]
    refine ⟨⟨-k, ?_⟩, ?_, ?_⟩
    · rw [hred]
      push_cast
      rw [h2eq]
      ring
    · linarith
    · rw [h2eq] at *
      linarith

/-! ## The Cardano expression of the Markley starter evaluates to the
unique real root of the starter cubic y^3 + 3qy = 2r whenever the
quadratic cofactor has no real zero. -/

lemma cardano_root (q r y0 : ℝ) (hcubic : y0 ^ 3 + 3 * q * y0 = 2 * r)
    (hy4 : 0 < y0 * y0 + 4 * q) (hy1 : 0 < y0 * y0 + q)
    (hrpos : 0 < r) (hy0pos : 0 < y0) :
    0 < cbrt (|r| + Real.sqrt (q * q * q + r * r))
        * cbrt (|r| + Real.sqrt (q * q * q + r * r)) ∧
    2 * r * (cbrt (|r| + Real.sqrt (q * q * q + r * r))
        * cbrt (|r| + Real.sqrt (q * q * q + r * r)))
      / (cbrt (|r| + Real.sqrt (q * q * q + r * r))
            * cbrt (|r| + Real.sqrt (q * q * q + r * r))
            * (cbrt (|r| + Real.sqrt (q * q * q + r * r))
                * cbrt (|r| + Real.sqrt (q * q * q + r * r)))
          + q * (cbrt (|r| + Real.sqrt (q * q * q + r * r))
            * cbrt (|r| + Real.sqrt (q * q * q + r * r)))
          + q * q) = y0 := by
  set c := Real.sqrt (y0 * y0 + 4 * q) with hcdef
  have hc0 : 0 ≤ c := Real.sqrt_nonneg _
  have hc2 : c * c = y0 * y0 + 4 * q := Real.mul_self_sqrt (le_of_lt hy4)
  have htpos : 0 < (y0 + c) / 2 := by linarith
  have hsqX : q * q * q + r * r = (c * (y0 * y0 + q) / 2) ^ 2 := by
    linear_combination (-(y0 * y0 + q) ^ 2 / 4) * hc2
      + (-(y0 * (y0 * y0 + 3 * q) + 2 * r) / 4) * hcubic
  have hs : Real.sqrt (q * q * q + r * r) = c * (y0 * y0 + q) / 2 := by
    rw [hsqX, Real.sqrt_sq (div_nonneg (mul_nonneg hc0 (le_of_lt hy1)) (by norm_num))]
  have hrabs : |r| = r := abs_of_nonneg (le_of_lt hrpos)
  have hcube : |r| + Real.sqrt (q * q * q + r * r) = ((y0 + c) / 2) ^ 3 := by
    rw [hrabs, hs]
    linear_combination (-(3 * y0 + c) / 8) * hc2 + (-1 / 2) * hcubic
  have hW : cbrt (|r| + Real.sqrt (q * q * q + r * r)) = (y0 + c) / 2 := by
    rw [hcube]
    exact cbrt_cube _ (le_of_lt htpos)
  have hT : 0 < (y0 + c) / 2 * ((y0 + c) / 2) := mul_pos htpos htpos
  constructor
  · rw [hW]
    exact hT
  · rw [hW]
    have ht2 : (y0 + c) / 2 * ((y0 + c) / 2) = y0 * ((y0 + c) / 2) + q := by
      linear_combination (1 / 4) * hc2
    have hDpos : 0 < (y0 + c) / 2 * ((y0 + c) / 2) * ((y0 + c) / 2 * ((y0 + c) / 2))
        + q * ((y0 + c) / 2 * ((y0 + c) / 2)) + q * q := by
      nlinarith [sq_nonneg (2 * ((y0 + c) / 2 * ((y0 + c) / 2)) + q), sq_nonneg q,
        mul_pos hT hT]
    rw [div_eq_iff (ne_of_gt hDpos)]
    linear_combination (-(y0 * ((y0 + c) / 2 * ((y0 + c) / 2) + y0 * ((y0 + c) / 2) - q))) * ht2
      + (-((y0 + c) / 2 * ((y0 + c) / 2))) * hcubic

/-- At mean anomaly pi the Markley starter is exactly pi for every
eccentricity in [0, 1): the root of the starter cubic is y = (d-1) pi. -/
lemma markleyStarter_pi (e : ℝ) (he0 : 0 ≤ e) (he1 : e < 1) :
    markleyStarter e M_PI = M_PI := by
  have h6 := pisq_sub_six_pos
  have hpip := M_PI_pos
  have hpisq : 0 < M_PI * M_PI := mul_pos hpip hpip
  have hA : markley_a e M_PI * (M_PISQ - 6) = 3 * M_PISQ := by
    simp only [markley_a, sub_self]
    field_simp
  have hA' : markley_a e M_PI * (M_PI * M_PI - 6) = 3 * (M_PI * M_PI) := by
    simpa only [M_PISQ] using hA
  have h6' : 0 < M_PI * M_PI - 6 := by simpa only [M_PISQ] using h6
  have hA3 : 3 < markley_a e M_PI := by nlinarith [hA', h6']
  have hApos : 0 < markley_a e M_PI := by linarith
  have hd_eq : markley_d e M_PI = 3 * (1 - e) + markley_a e M_PI * e := by
    rw [markley_d]
  have hd3 : 3 ≤ markley_d e M_PI := by
    rw [hd_eq]
    nlinarith
  have hdpos : 0 < markley_d e M_PI := by linarith
  have hq_eq : markley_q e M_PI
      = 2 * markley_a e M_PI * markley_d e M_PI * (1 - e) - M_PI * M_PI := by
    rw [markley_q]
  have hr_eq : markley_r e M_PI
      = 3 * markley_a e M_PI * markley_d e M_PI * (markley_d e M_PI - 1 + e) * M_PI
        + M_PI * M_PI * M_PI := by
    rw [markley_r]
  have hAd1e : 0 < markley_a e M_PI * markley_d e M_PI * (1 - e) := by
    apply mul_pos (mul_pos hApos hdpos)
    linarith
  have hcubic : ((markley_d e M_PI - 1) * M_PI) ^ 3
      + 3 * markley_q e M_PI * ((markley_d e M_PI - 1) * M_PI)
      = 2 * markley_r e M_PI := by
    rw [hq_eq, hr_eq, hd_eq]
    linear_combination ((3 * (1 - e) + markley_a e M_PI * e) ^ 2 * e * M_PI) * hA'
  have hy4 : 0 < (markley_d e M_PI - 1) * M_PI * ((markley_d e M_PI - 1) * M_PI)
      + 4 * markley_q e M_PI := by
    have hident : (markley_d e M_PI - 1) * M_PI * ((markley_d e M_PI - 1) * M_PI)
        + 4 * markley_q e M_PI
        = ((markley_d e M_PI - 1) * (markley_d e M_PI - 1) - 4) * (M_PI * M_PI)
          + 8 * (markley_a e M_PI * markley_d e M_PI * (1 - e)) := by
      rw [hq_eq]
      ring
    rw [hident]
    have hsq : 4 ≤ (markley_d e M_PI - 1) * (markley_d e M_PI - 1) := by nlinarith
    nlinarith
  have hq_lb : 0 < markley_q e M_PI + M_PI * M_PI := by
    rw [hq_eq]
    nlinarith
  have hy0sq : 4 * (M_PI * M_PI)
      ≤ (markley_d e M_PI - 1) * M_PI * ((markley_d e M_PI - 1) * M_PI) := by
    have hsq : 4 ≤ (markley_d e M_PI - 1) * (markley_d e M_PI - 1) := by nlinarith
    nlinarith
  have hy1 : 0 < (markley_d e M_PI - 1) * M_PI * ((markley_d e M_PI - 1) * M_PI)
      + markley_q e M_PI := by
    nlinarith
  have hrpos : 0 < markley_r e M_PI := by
    rw [hr_eq]
    have h1 : 0 < 3 * markley_a e M_PI * markley_d e M_PI
        * (markley_d e M_PI - 1 + e) * M_PI := by
      apply mul_pos
      apply mul_pos
      apply mul_pos
      · linarith
      · exact hdpos
      · linarith
      · exact hpip
    nlinarith
  have hy0pos : 0 < (markley_d e M_PI - 1) * M_PI := by
    apply mul_pos
    · linarith
    · exact hpip
  obtain ⟨hwpos', hratio⟩ := cardano_root (markley_q e M_PI) (markley_r e M_PI)
    ((markley_d e M_PI - 1) * M_PI) hcubic hy4 hy1 hrpos hy0pos
  have hwpos : markley_w e M_PI > 0 := by
    rw [markley_w]
    exact hwpos'
  rw [markleyStarter, if_pos hwpos]
  rw [markley_w]
  rw [hratio]
  field_simp
  ring

lemma markley_pi (e : ℝ) (he0 : 0 ≤ e) (he1 : e < 1) : markley e M_PI = M_PI := by
  rw [markley, markleyStarter_pi e he0 he1]
  exact itercore_pi e he0

/-- Claim C7: odd symmetry of the solver, solve(e, -M) = 2 pi - solve(e, M)
for M in (0, 2 pi).  Away from M = pi this is the explicit negative-branch
reflection in coo_kesolver; at M = pi both sides reduce to markley(e, pi),
which equals pi exactly because the Markley starter cubic is solved
exactly by pi there and the correction pass then vanishes. -/
theorem claim_C7 (e M : ℝ) (he0 : 0 ≤ e) (he1 : e < 1)
    (hM0 : 0 < M) (hM2 : M < 2 * Real.pi) :
    coo_kesolver e (-M) = 2 * Real.pi - coo_kesolver e M := by
  have h2eq : M_2PI = 2 * Real.pi := by
    simp only [M_2PI, M_PI]
    ring
  have hpip := M_PI_pos
  have hM2' : M < M_2PI := by rw [h2eq]; exact hM2
  rcases lt_trichotomy M M_PI with h | h | h
  · have hr1 : reduce (-M) = -M := reduce_neg_of_lt_pi M hM0 h
    have hr2 : reduce M = M := reduce_eq_self M (le_of_lt hM0) (le_of_lt h)
    rw [coo_kesolver, coo_kesolver, hr1, hr2]
    rw [if_pos (by linarith), if_neg (by linarith)]
    rw [neg_neg, h2eq]
    ring
  · subst h
    have hr1 : reduce (-M_PI) = M_PI := reduce_neg_pi
    have hr2 : reduce M_PI = M_PI := reduce_eq_self M_PI (le_of_lt hM0) le_rfl
    rw [coo_kesolver, coo_kesolver, hr1, hr2]
    simp only [if_neg (show ¬ (M_PI < 0) by linarith)]
    rw [markley_pi e he0 he1]
    rw [show M_PI = Real.pi from rfl]
    ring
  · have hr1 : reduce (-M) = M_2PI - M := reduce_neg_of_pi_lt M h hM2'
    have hr2 : reduce M = M - M_2PI := reduce_of_pi_lt M h hM2'
    rw [coo_kesolver, coo_kesolver, hr1, hr2]
    rw [if_neg (by linarith), if_pos (by linarith)]
    rw [show -(M - M_2PI) = M_2PI - M by ring, h2eq]
    ring

/-- Claim C7 (witness): the symmetry at the concrete input e = 0, M = pi/2. -/
theorem claim_C7_witness :
    ((0:ℝ) ≤ 0 ∧ (0:ℝ) < 1 ∧ (0:ℝ) < Real.pi / 2 ∧ Real.pi / 2 < 2 * Real.pi) ∧
    coo_kesolver 0 (-(Real.pi / 2)) = 2 * Real.pi - coo_kesolver 0 (Real.pi / 2) :=
  ⟨⟨le_rfl, one_pos, by positivity, by nlinarith [Real.pi_pos]⟩,
   claim_C7 0 (Real.pi / 2) le_rfl one_pos (by positivity) (by nlinarith [Real.pi_pos])⟩

/-! ## atan2 at degenerate arguments -/

lemma atan2_zero_of_nonneg (x : ℝ) (hx : 0 ≤ x) : atan2 0 x = 0 := by
  rw [atan2]
  have h : (⟨x, 0⟩ : ℂ) = (x : ℂ) := rfl
  rw [h]
  exact Complex.arg_ofReal_of_nonneg hx

lemma hypot_zero_zero : hypot 0 0 = 0 := by
  simp [hypot]

lemma hypot_zero_nonneg (e : ℝ) (he : 0 ≤ e) : hypot 0 e = e := by
  rw [hypot]
  simpa using Real.sqrt_mul_self he

/-! ## The solver at mean anomaly zero is exact for every eccentricity. -/

lemma markley_a_pos (e ma : ℝ) (he : 0 ≤ e) (hma : ma ≤ M_PI) : 0 < markley_a e ma := by
  have h6 := pisq_sub_six_pos
  have h6' : 0 < M_PI * M_PI - 6 := by simpa only [M_PISQ] using h6
  have hpip := M_PI_pos
  simp only [markley_a, M_PISQ]
  have hinv : 0 < 1 / (M_PI * M_PI - 6) := by positivity
  have h1 : 0 < 1 / (M_PI * M_PI - 6) * (3 * (M_PI * M_PI)) := by positivity
  have h2 : 0 ≤ 1.6 * M_PI * (1 / (M_PI * M_PI - 6)) * (M_PI - ma) / (1 + e) := by
    apply div_nonneg
    · apply mul_nonneg
      · positivity
      · linarith
    · linarith
  linarith

lemma markleyStarter_zero (e : ℝ) (he0 : 0 ≤ e) (he1 : e < 1) :
    markleyStarter e 0 = 0 := by
  have hpip := M_PI_pos
  have hApos : 0 < markley_a e 0 := markley_a_pos e 0 he0 (le_of_lt hpip)
  have hdpos : 0 < markley_d e 0 := by
    rw [markley_d]
    nlinarith
  have hq : markley_q e 0 = 2 * markley_a e 0 * markley_d e 0 * (1 - e) := by
    rw [markley_q]
    ring
  have hqpos : 0 < markley_q e 0 := by
    rw [hq]
    apply mul_pos (by nlinarith)
    linarith
  have hr : markley_r e 0 = 0 := by
    rw [markley_r]
    ring
  have hq3 : markley_q e 0 * markley_q e 0 * markley_q e 0
      = (Real.sqrt (markley_q e 0) ^ 3) ^ 2 := by
    have h2 : Real.sqrt (markley_q e 0) ^ 2 = markley_q e 0 :=
      Real.sq_sqrt (le_of_lt hqpos)
    calc markley_q e 0 * markley_q e 0 * markley_q e 0 = (markley_q e 0) ^ 3 := by ring
      _ = (Real.sqrt (markley_q e 0) ^ 2) ^ 3 := by rw [h2]
      _ = (Real.sqrt (markley_q e 0) ^ 3) ^ 2 := by ring
  have hcube : |markley_r e 0| + Real.sqrt (markley_q e 0 * markley_q e 0 * markley_q e 0
      + markley_r e 0 * markley_r e 0) = Real.sqrt (markley_q e 0) ^ 3 := by
    rw [hr]
    norm_num
    rw [hq3, Real.sqrt_sq (by positivity)]
  have hw : markley_w e 0 = markley_q e 0 := by
    rw [markley_w, hcube, cbrt_cube _ (Real.sqrt_nonneg _),
      Real.mul_self_sqrt (le_of_lt hqpos)]
  rw [markleyStarter, if_pos (by rw [hw]; exact hqpos), hr]
  norm_num

lemma itercore_zero (e : ℝ) (he : 0 ≤ e) : itercore e 0 0 = 0 := by
  have htan : Real.tan (0.5 * 0) = 0 := by
    norm_num [Real.tan_zero]
  simp only [itercore, coo_sincos, htan, if_pos he]
  norm_num

lemma kesolver_zero (e : ℝ) (he0 : 0 ≤ e) (he1 : e < 1) : coo_kesolver e 0 = 0 := by
  have hred : reduce 0 = 0 := reduce_eq_self 0 le_rfl (le_of_lt M_PI_pos)
  rw [coo_kesolver, hred]
  rw [if_neg (by norm_num)]
  rw [markley, markleyStarter_zero e he0 he1]
  exact itercore_zero e he0

lemma coo_sincos_zero_plain : coo_sincos 0 (-1) = (0, 1) := by
  have htan : Real.tan (0.5 * 0) = 0 := by norm_num [Real.tan_zero]
  simp only [coo_sincos, htan]
  norm_num

/-- Forward conversion of the element set (a, e, 0, 0, 0, 0): the body sits
at perihelion on the reference x axis with its velocity along y. -/
lemma hel2hco_core_axis (coo0 : hco_t) (a e mu : ℝ)
    (ha : 0 < a) (he0 : 0 ≤ e) (he1 : e < 1) :
    hel2hco_core coo0 ⟨a, e, 0, 0, 0, 0⟩ mu
      = (0, ⟨⟨a * (1 - e), 0, 0, coo0.pos.abs⟩,
             ⟨0, Real.sqrt mu * Real.sqrt (1 - e * e) / ((1 - e) * Real.sqrt a), 0,
              coo0.vel.abs⟩⟩) := by
  rw [hel2hco_core]
  rw [if_neg (by simp only; linarith)]
  rw [if_neg (by simp only; push_neg; exact ⟨he0, he1⟩)]
  simp only [coo_sincos_zero_plain, kesolver_zero e he0 he1]
  norm_num
  ring

/-- Backward conversion of the perihelion-on-axis state produced by
hel2hco_core_axis recovers all six elements exactly. -/
lemma hco2hel_core_axis (ele0 : hel_t) (a e mu P V : ℝ)
    (ha : 0 < a) (he0 : 0 ≤ e) (he1 : e < 1) (hmu : 0 < mu) :
    hco2hel_core ele0
      ⟨⟨a * (1 - e), 0, 0, P⟩,
       ⟨0, Real.sqrt mu * Real.sqrt (1 - e * e) / ((1 - e) * Real.sqrt a), 0, V⟩⟩ mu
      = (0, ⟨a, e, 0, 0, 0, 0⟩) := by
  have h1e : 0 < 1 - e := by linarith
  have hsa : 0 < Real.sqrt a := Real.sqrt_pos.mpr ha
  have hsmu : 0 < Real.sqrt mu := Real.sqrt_pos.mpr hmu
  have hsa2 : Real.sqrt a * Real.sqrt a = a := Real.mul_self_sqrt (le_of_lt ha)
  have hsmu2 : Real.sqrt mu * Real.sqrt mu = mu := Real.mul_self_sqrt (le_of_lt hmu)
  have he2 : (0:ℝ) ≤ 1 - e * e := by nlinarith
  have hT2 : Real.sqrt (1 - e * e) * Real.sqrt (1 - e * e) = 1 - e * e :=
    Real.mul_self_sqrt he2
  have hT0 : 0 ≤ Real.sqrt (1 - e * e) := Real.sqrt_nonneg _
  have hx : 0 < a * (1 - e) := mul_pos ha h1e
  -- the norm of the position vector
  have hpabs : vec3d_abs ⟨a * (1 - e), 0, 0, P⟩ = a * (1 - e) := by
    rw [vec3d_abs]
    simp only
    rw [show a * (1 - e) * (a * (1 - e)) + 0 * 0 + 0 * 0 = (a * (1 - e)) ^ 2 by ring,
      Real.sqrt_sq (le_of_lt hx)]
  -- the normalised velocity
  set ny := Real.sqrt (1 - e * e) / ((1 - e) * Real.sqrt a) with hnydef
  have hny0 : 0 ≤ ny := by
    rw [hnydef]
    positivity
  have hscale : 1 / Real.sqrt mu * (Real.sqrt mu * Real.sqrt (1 - e * e)
      / ((1 - e) * Real.sqrt a)) = ny := by
    rw [hnydef]
    field_simp
  have hny2 : ny * ny = (1 - e * e) / ((1 - e) * (1 - e) * a) := by
    rw [hnydef, div_mul_div_comm, hT2]
    congr 1
    calc ((1 - e) * Real.sqrt a) * ((1 - e) * Real.sqrt a)
        = (1 - e) * (1 - e) * (Real.sqrt a * Real.sqrt a) := by ring
      _ = (1 - e) * (1 - e) * a := by rw [hsa2]
  have hnabs : vec3d_abs ⟨0, ny, 0, 0⟩ = ny := by
    rw [vec3d_abs]
    simp only
    rw [show (0 * 0 + ny * ny + 0 * 0 : ℝ) = ny ^ 2 by ring, Real.sqrt_sq hny0]
  have hinva : 2 / (a * (1 - e)) - (1 - e * e) / ((1 - e) * (1 - e) * a) = 1 / a := by
    field_simp
    ring
  rw [hco2hel_core]
  simp only [vec3d_smul, vec3d_outer, vec3d_inner, v3d_zero, hpabs]
  rw [hscale]
  simp only [mul_zero, zero_mul, sub_zero, zero_sub, add_zero, zero_add, neg_zero]
  rw [hnabs, hny2, hinva]
  rw [if_pos (show (1:ℝ) / a > 0 by positivity)]
  rw [show 1 - a * (1 - e) * (1 / a) = e from by field_simp]
  rw [hypot_zero_nonneg e he0]
  rw [if_neg (show ¬ (e < 0 ∨ 1 ≤ e) from by push_neg; exact ⟨he0, he1⟩)]
  rw [one_div_one_div, hypot_zero_zero]
  rw [atan2_zero_of_nonneg _ (mul_nonneg (le_of_lt hx) hny0)]
  rw [atan2_zero_of_nonneg 0 le_rfl]
  rw [atan2_zero_of_nonneg e he0]
  rw [atan2_zero_of_nonneg (e - e * e) (by nlinarith)]
  norm_num

/-- Claim C6 (amended): the Keplerian to Cartesian round trip is exact (not
merely within a tolerance) on the family of non-degenerate perihelion
states with all four angles zero: for every a > 0, 0 <= e < 1 and mass
parameter mu > 0, hel2hco_core followed by hco2hel_core succeeds and
returns exactly (a, e, 0, 0, 0, 0).  For angle configurations where the
element decomposition is degenerate (inclination zero with a nonzero node)
no tolerance bounds the round trip, see the counterexample. -/
theorem claim_C6_amended (coo0 : hco_t) (ele0 : hel_t) (a e mu : ℝ)
    (ha : 0 < a) (he0 : 0 ≤ e) (he1 : e < 1) (hmu : 0 < mu) :
    (hel2hco_core coo0 ⟨a, e, 0, 0, 0, 0⟩ mu).1 = 0 ∧
    hco2hel_core ele0 (hel2hco_core coo0 ⟨a, e, 0, 0, 0, 0⟩ mu).2 mu
      = (0, ⟨a, e, 0, 0, 0, 0⟩) := by
  rw [hel2hco_core_axis coo0 a e mu ha he0 he1]
  exact ⟨rfl, hco2hel_core_axis ele0 a e mu coo0.pos.abs coo0.vel.abs ha he0 he1 hmu⟩

/-- Claim C6 (witness): the amended round trip at a = 2, e = 1/2, mu = 1. -/
theorem claim_C6_witness :
    ((0:ℝ) < 2 ∧ (0:ℝ) ≤ 1/2 ∧ (1/2:ℝ) < 1 ∧ (0:ℝ) < 1) ∧
    ((hel2hco_core hco_zero ⟨2, 1/2, 0, 0, 0, 0⟩ 1).1 = 0 ∧
     hco2hel_core hel_zero (hel2hco_core hco_zero ⟨2, 1/2, 0, 0, 0, 0⟩ 1).2 1
       = (0, ⟨2, 1/2, 0, 0, 0, 0⟩)) :=
  ⟨⟨by norm_num, by norm_num, by norm_num, by norm_num⟩,
   claim_C6_amended hco_zero hel_zero 2 (1/2) 1 (by norm_num) (by norm_num)
     (by norm_num) (by norm_num)⟩

lemma coo_sincos_sq (x : ℝ) :
    (coo_sincos x (-1)).1 * (coo_sincos x (-1)).1
      + (coo_sincos x (-1)).2 * (coo_sincos x (-1)).2 = 1 := by
  simp only [coo_sincos]
  rw [if_neg (by norm_num)]
  simp only
  have h : (0:ℝ) < 1 + Real.tan (0.5 * x) * Real.tan (0.5 * x) := by
    nlinarith [sq_nonneg (Real.tan (0.5 * x))]
  field_simp
  ring

/-- Forward conversion with inclination, perihelion argument and mean
anomaly zero but an arbitrary node angle: the node only rotates the state
inside the reference plane. -/
lemma hel2hco_core_node (coo0 : hco_t) (a e mu lan : ℝ)
    (ha : 0 < a) (he0 : 0 ≤ e) (he1 : e < 1) :
    hel2hco_core coo0 ⟨a, e, 0, 0, lan, 0⟩ mu
      = (0, ⟨⟨(coo_sincos lan (-1)).2 * (a * (1 - e)),
              (coo_sincos lan (-1)).1 * (a * (1 - e)), 0, coo0.pos.abs⟩,
             ⟨-((coo_sincos lan (-1)).1
                 * (Real.sqrt mu * Real.sqrt (1 - e * e) / ((1 - e) * Real.sqrt a))),
              (coo_sincos lan (-1)).2
                 * (Real.sqrt mu * Real.sqrt (1 - e * e) / ((1 - e) * Real.sqrt a)),
              0, coo0.vel.abs⟩⟩) := by
  rw [hel2hco_core]
  rw [if_neg (by simp only; linarith)]
  rw [if_neg (by simp only; push_neg; exact ⟨he0, he1⟩)]
  simp only [coo_sincos_zero_plain, kesolver_zero e he0 he1]
  norm_num
  exact ⟨Or.inl (by ring), Or.inl (by ring)⟩

/-- Backward conversion of the node-rotated perihelion state: the node
angle is destroyed (the recovered lan is 0, the whole rotation having
happened inside the reference plane where the node is undefined). -/
lemma hco2hel_core_node (ele0 : hel_t) (a e mu P V S C : ℝ)
    (ha : 0 < a) (he0 : 0 ≤ e) (he1 : e < 1) (hmu : 0 < mu)
    (hSC : S * S + C * C = 1) :
    hco2hel_core ele0
      ⟨⟨C * (a * (1 - e)), S * (a * (1 - e)), 0, P⟩,
       ⟨-(S * (Real.sqrt mu * Real.sqrt (1 - e * e) / ((1 - e) * Real.sqrt a))),
        C * (Real.sqrt mu * Real.sqrt (1 - e * e) / ((1 - e) * Real.sqrt a)), 0, V⟩⟩ mu
      = (0, ⟨a, e, 0, 0, 0, 0⟩) := by
  have h1e : 0 < 1 - e := by linarith
  have hsa : 0 < Real.sqrt a := Real.sqrt_pos.mpr ha
  have hsmu : 0 < Real.sqrt mu := Real.sqrt_pos.mpr hmu
  have hsa2 : Real.sqrt a * Real.sqrt a = a := Real.mul_self_sqrt (le_of_lt ha)
  have he2 : (0:ℝ) ≤ 1 - e * e := by nlinarith
  have hT2 : Real.sqrt (1 - e * e) * Real.sqrt (1 - e * e) = 1 - e * e :=
    Real.mul_self_sqrt he2
  have hT0 : 0 ≤ Real.sqrt (1 - e * e) := Real.sqrt_nonneg _
  have hx : 0 < a * (1 - e) := mul_pos ha h1e
  have hsmune : Real.sqrt mu ≠ 0 := ne_of_gt hsmu
  have hsane : Real.sqrt a ≠ 0 := ne_of_gt hsa
  have h1ene : (1 - e) ≠ 0 := ne_of_gt h1e
  -- the norm of the position vector
  have hpabs : vec3d_abs ⟨C * (a * (1 - e)), S * (a * (1 - e)), 0, P⟩ = a * (1 - e) := by
    rw [vec3d_abs]
    simp only
    rw [show C * (a * (1 - e)) * (C * (a * (1 - e)))
          + S * (a * (1 - e)) * (S * (a * (1 - e))) + 0 * 0 = (a * (1 - e)) ^ 2 from by
        linear_combination ((a * (1 - e)) ^ 2) * hSC,
      Real.sqrt_sq (le_of_lt hx)]
  -- the normalised velocity
  set ny := Real.sqrt (1 - e * e) / ((1 - e) * Real.sqrt a) with hnydef
  have hny0 : 0 ≤ ny := by
    rw [hnydef]
    positivity
  have hsS : 1 / Real.sqrt mu
      * (-(S * (Real.sqrt mu * Real.sqrt (1 - e * e) / ((1 - e) * Real.sqrt a))))
      = -(S * ny) := by
    rw [hnydef]
    field_simp
    ring
  have hsC : 1 / Real.sqrt mu
      * (C * (Real.sqrt mu * Real.sqrt (1 - e * e) / ((1 - e) * Real.sqrt a)))
      = C * ny := by
    rw [hnydef]
    field_simp
    ring
  have hny2 : ny * ny = (1 - e * e) / ((1 - e) * (1 - e) * a) := by
    rw [hnydef, div_mul_div_comm, hT2]
    congr 1
    calc ((1 - e) * Real.sqrt a) * ((1 - e) * Real.sqrt a)
        = (1 - e) * (1 - e) * (Real.sqrt a * Real.sqrt a) := by ring
      _ = (1 - e) * (1 - e) * a := by rw [hsa2]
  have hnabs : vec3d_abs ⟨-(S * ny), C * ny, 0, 0⟩ = ny := by
    rw [vec3d_abs]
    simp only
    rw [show (-(S * ny) * -(S * ny) + C * ny * (C * ny) + 0 * 0 : ℝ) = ny ^ 2 from by
        linear_combination (ny ^ 2) * hSC,
      Real.sqrt_sq hny0]
  have hinva : 2 / (a * (1 - e)) - (1 - e * e) / ((1 - e) * (1 - e) * a) = 1 / a := by
    field_simp
    ring
  rw [hco2hel_core]
  simp only [vec3d_smul, vec3d_outer, vec3d_inner, v3d_zero, hpabs]
  rw [hsS, hsC]
  simp only [mul_zero, zero_mul, sub_zero, zero_sub, add_zero, zero_add, neg_zero]
  rw [hnabs, hny2, hinva]
  rw [if_pos (show (1:ℝ) / a > 0 by positivity)]
  rw [show C * (a * (1 - e)) * -(S * ny) + S * (a * (1 - e)) * (C * ny) = 0 from by ring]
  simp only [zero_mul, mul_zero]
  rw [show 1 - a * (1 - e) * (1 / a) = e from by field_simp]
  rw [hypot_zero_nonneg e he0]
  rw [if_neg (show ¬ (e < 0 ∨ 1 ≤ e) from by push_neg; exact ⟨he0, he1⟩)]
  rw [one_div_one_div, hypot_zero_zero]
  rw [show C * (a * (1 - e)) * (C * ny) - S * (a * (1 - e)) * -(S * ny)
        = a * (1 - e) * ny from by linear_combination (a * (1 - e) * ny) * hSC]
  rw [atan2_zero_of_nonneg _ (mul_nonneg (le_of_lt hx) hny0)]
  rw [atan2_zero_of_nonneg 0 le_rfl]
  rw [atan2_zero_of_nonneg e he0]
  rw [atan2_zero_of_nonneg (e - e * e) (by nlinarith)]
  norm_num

/-- Claim C6 (counterexample): for the body with elements a = 1, e = 1/2,
inc = 0, aph = 0, lan = 1, man = 0 and mu = 1, both conversions succeed
but the recovered longitude of ascending node is 0, not 1: with zero
inclination the node is undefined and hco2hel_core computes
atan2(0, -0) = 0, so no 1e-12 tolerance bounds the round trip. -/
theorem claim_C6_counterexample :
    (hel2hco_core hco_zero ⟨1, 1/2, 0, 0, 1, 0⟩ 1).1 = 0 ∧
    (hco2hel_core hel_zero (hel2hco_core hco_zero ⟨1, 1/2, 0, 0, 1, 0⟩ 1).2 1).1 = 0 ∧
    (hco2hel_core hel_zero (hel2hco_core hco_zero ⟨1, 1/2, 0, 0, 1, 0⟩ 1).2 1).2.lan = 0 ∧
    ¬ |(hco2hel_core hel_zero (hel2hco_core hco_zero ⟨1, 1/2, 0, 0, 1, 0⟩ 1).2 1).2.lan
        - 1| < 1e-12 := by
  have hfwd := hel2hco_core_node hco_zero 1 (1/2) 1 1
    (by norm_num) (by norm_num) (by norm_num)
  rw [hfwd]
  have hbwd := hco2hel_core_node hel_zero 1 (1/2) 1 hco_zero.pos.abs hco_zero.vel.abs
    ((coo_sincos 1 (-1)).1) ((coo_sincos 1 (-1)).2)
    (by norm_num) (by norm_num) (by norm_num) (by norm_num) (coo_sincos_sq 1)
  rw [hbwd]
  norm_num
